import Mathlib

/-!
Shallow embedding of the GraphLab shared-memory graph database core:
`graph_database_sharedmem` and `graph_vertex_sharedmem`
(src/graphlab/database/sharedmem_database/graph_vertex_sharedmem.hpp) and
`graph_edge_sharedmem` (src/graphlab/database/graph_edge_sharedmem.hpp).

Pointers into shard storage are modelled as (shard id, slot) locators;
heap rows are modelled as values, so a C++ deep copy is plain value copy.
Machine integers (`graph_vid_t`, `graph_shard_id_t`, sizes) are modelled
as `Nat`.  Fallible code returns `Option`.
-/

set_option linter.unusedVariables false

/-- Modelled from the spec: the typed-value collaborator `graph_value` is not
under src/.  Per the spec a value carries a payload, a dirty/"modified" flag,
a delta-commit flag, and a baseline snapshot (`_old`). -/
structure graph_value where
  data : Nat
  old : Nat
  modified : Bool
  delta_commit : Bool
deriving DecidableEq, Inhabited

/-- Modelled from the spec: the post-commit operation clears the modification
and delta flags and snapshots the current value as the new baseline. -/
def graph_value.post_commit_state (v : graph_value) : graph_value :=
  { data := v.data, old := v.data, modified := false, delta_commit := false }

/-- Modelled from the spec: `graph_field` (schema entry) is not under src/;
only its identity matters to the core. -/
structure graph_field where
  name : Nat
deriving DecidableEq, Inhabited

/-- Modelled from the spec: `graph_row` is not under src/.  A row holds an
ordered sequence of typed values plus the vertex/edge tag `_is_vertex`. -/
structure graph_row where
  is_vertex : Bool
  values : List graph_value
deriving DecidableEq, Inhabited

def graph_row.num_fields (r : graph_row) : Nat := r.values.length

def graph_row.get_field (r : graph_row) (i : Nat) : graph_value :=
  r.values.getD i default

/-- Modelled from the spec: `new graph_row(db, fields)` creates a row of all
null values matching the schema. -/
def graph_row.mk_null (fields : List graph_field) : graph_row :=
  { is_vertex := false, values := fields.map (fun _ => default) }

/-- Association-list lookup keyed by `Nat`; models lookup in the
`boost::unordered_map`s of the database. -/
def lookupA {α : Type} : List (Nat × α) → Nat → Option α
  | [], _ => none
  | (k, a) :: t, v => if k = v then some a else lookupA t v

/-- Association-list update; models `map[k] = a`. -/
def setA {α : Type} : List (Nat × α) → Nat → α → List (Nat × α)
  | [], k, a => [(k, a)]
  | (k', a') :: t, k, a => if k' = k then (k, a) :: t else (k', a') :: setA t k a

/-- The physical shard (`graph_shard` with its `graph_shard_impl` flattened):
an ordered vertex sequence (vid plus row), an ordered edge sequence
(source, target, row), and the derived-shard back-mapping `edgeid`. -/
structure graph_shard where
  shard_id : Nat
  vertices : List (Nat × graph_row)
  edges : List (Nat × Nat × graph_row)
  edgeid : List Nat
deriving DecidableEq, Inhabited

/-- `graph_shard_impl::add_vertex`: appends the (vid, row) entry, returning
the storage position. -/
def graph_shard.add_vertex (s : graph_shard) (vid : Nat) (r : graph_row) :
    Nat × graph_shard :=
  (s.vertices.length, { s with vertices := s.vertices ++ [(vid, r)] })

/-- `graph_shard_impl::add_edge`: appends the (source, target, row) entry,
returning the storage position. -/
def graph_shard.add_edge (s : graph_shard) (src dst : Nat) (r : graph_row) :
    Nat × graph_shard :=
  (s.edges.length, { s with edges := s.edges ++ [(src, dst, r)] })

def graph_shard.num_vertices (s : graph_shard) : Nat := s.vertices.length

def graph_shard.num_edges (s : graph_shard) : Nat := s.edges.length

/-- `graph_shard::edge_data(i)`: pointer to the i-th edge row, `none` models
the NULL pointer for a missing position. -/
def graph_shard.edge_data (s : graph_shard) (i : Nat) : Option graph_row :=
  (s.edges.get? i).map (fun e => e.2.2)

/-- True iff field j of edge row i of the shard carries the modified flag
(out-of-range positions read as unmodified defaults). -/
def graph_shard.edge_field_modified (s : graph_shard) (i j : Nat) : Bool :=
  (((s.edges.getD i default).2.2).values.getD j default).modified

/-- Models the caller mutating field j of edge row i through the row pointer
returned by the coarse-grained API (writing a new `graph_value`, which is how
a field becomes marked modified). -/
def graph_shard.set_edge_field (s : graph_shard) (i j : Nat) (v : graph_value) :
    graph_shard :=
  let e := s.edges.getD i default
  { s with
    edges := s.edges.set i (e.1, e.2.1, { e.2.2 with values := e.2.2.values.set j v }) }

/-- Modelled from the spec: the per-shard Edge Index (`graph_edge_index`, not
under src/) maps a vid to the positions of its incoming and outgoing edges
within the shard; entries are appended on edge insertion and never removed.
Stored as the insertion sequence of (source, target, position) records. -/
structure graph_edge_index where
  entries : List (Nat × Nat × Nat)
deriving DecidableEq, Inhabited

def graph_edge_index.add_edge (idx : graph_edge_index) (src dst pos : Nat) :
    graph_edge_index :=
  ⟨idx.entries ++ [(src, dst, pos)]⟩

/-- Positions of edges whose target is `v` (incoming), in insertion order. -/
def graph_edge_index.in_posns (idx : graph_edge_index) (v : Nat) : List Nat :=
  (idx.entries.filter (fun e => e.2.1 == v)).map (fun e => e.2.2)

/-- Positions of edges whose source is `v` (outgoing), in insertion order. -/
def graph_edge_index.out_posns (idx : graph_edge_index) (v : Nat) : List Nat :=
  (idx.entries.filter (fun e => e.1 == v)).map (fun e => e.2.2)

/-- `graph_edge_index::get_edge_index(index_in, index_out, getIn, getOut, vid)`. -/
def graph_edge_index.get_edge_index (idx : graph_edge_index)
    (getIn getOut : Bool) (v : Nat) : List Nat × List Nat :=
  ((if getIn then idx.in_posns v else []),
   (if getOut then idx.out_posns v else []))

/-- Modelled from the spec: the Vertex Index (`graph_vertex_index`, not under
src/) maps a vid to its dense storage slot; one entry per successful vertex
insertion, never removed.  `get_index` on a missing vid is modelled as `none`
(the source returns an out-of-range sentinel, which `get_vertex` tests by
`idx >= vertex_store.size()`). -/
structure graph_vertex_index where
  entries : List (Nat × Nat)
deriving DecidableEq, Inhabited

def graph_vertex_index.get_index (ix : graph_vertex_index) (v : Nat) : Option Nat :=
  lookupA ix.entries v

def graph_vertex_index.has_vertex (ix : graph_vertex_index) (v : Nat) : Bool :=
  (ix.get_index v).isSome

def graph_vertex_index.add_vertex (ix : graph_vertex_index) (v idx : Nat) :
    graph_vertex_index :=
  ⟨(v, idx) :: ix.entries⟩

/-- The shared-memory database state (`graph_database_sharedmem`).
`vertex_store` holds the `graph_row*` pointers as (shard id, slot) locators
into shard vertex storage.  The sharding-constraint graph is omitted: no
claim under verification mentions `adjacent_shards`. -/
structure graph_database_sharedmem where
  vertex_fields : List graph_field
  edge_fields : List graph_field
  shards : List graph_shard
  vertex_store : List (Nat × Nat)
  vertex_index : graph_vertex_index
  edge_index : List graph_edge_index
  vid2master : List (Nat × Nat)
  vid2mirrors : List (Nat × List Nat)
  num_edges : Nat
  num_shards : Nat
deriving DecidableEq

/-- The constructor: `numshards` empty shards with `shard_id := i`, empty
indices and maps. -/
def graph_database_sharedmem.init (vf ef : List graph_field) (n : Nat) :
    graph_database_sharedmem :=
  { vertex_fields := vf
    edge_fields := ef
    shards := (List.range n).map
      (fun i => { shard_id := i, vertices := [], edges := [], edgeid := [] })
    vertex_store := []
    vertex_index := ⟨[]⟩
    edge_index := List.replicate n ⟨[]⟩
    vid2master := []
    vid2mirrors := []
    num_edges := 0
    num_shards := n }

/-- `get_master`: `vid2master[vid]` (`operator[]` reads the entry; a missing
vid reads the value-initialized default 0). -/
def graph_database_sharedmem.get_master (db : graph_database_sharedmem) (v : Nat) : Nat :=
  (lookupA db.vid2master v).getD 0

/-- `vid2mirrors[vid]` viewed as a defaulted lookup (missing vid reads the
empty set). -/
def graph_database_sharedmem.mirrors (db : graph_database_sharedmem) (v : Nat) : List Nat :=
  (lookupA db.vid2mirrors v).getD []

def graph_database_sharedmem.num_vertices (db : graph_database_sharedmem) : Nat :=
  db.vertex_store.length

/-- `get_shard`: reference to the live shard (the locator is the shard id;
the value model returns the shard's current value). -/
def graph_database_sharedmem.get_shard (db : graph_database_sharedmem) (i : Nat) :
    graph_shard :=
  db.shards.getD i default

/-- `add_vertex(vid, data)`.  Returns `false` and leaves the state untouched
when the vid is already indexed; otherwise stores the row in the master shard
`hash(vid) % num_shards`, pushes the row pointer onto `vertex_store`, records
`vid -> master` and indexes the vid at slot `vertex_store.size()-1`.  The hash
is a parameter (`boost::hash` is outside src/). -/
def graph_database_sharedmem.add_vertex (db : graph_database_sharedmem)
    (vidHash : Nat → Nat) (vid : Nat) (data : Option graph_row) :
    Bool × graph_database_sharedmem :=
  if db.vertex_index.has_vertex vid then (false, db)
  else
    let row := { (data.getD (graph_row.mk_null db.vertex_fields)) with is_vertex := true }
    let master := vidHash vid % db.num_shards
    let pr := (db.shards.getD master default).add_vertex vid row
    (true,
      { db with
        shards := db.shards.set master pr.2
        vid2master := setA db.vid2master vid master
        vertex_store := db.vertex_store ++ [(master, pr.1)]
        vertex_index := db.vertex_index.add_vertex vid db.vertex_store.length })

/-- The mirror-update step of `add_edge`: when the edge's shard differs from
the vertex's master shard and is not yet in the vertex's mirror set, insert
it (`vid2mirrors[v].insert(k)`). -/
def graph_database_sharedmem.add_mirror (db : graph_database_sharedmem)
    (v k : Nat) : graph_database_sharedmem :=
  if db.get_master v ≠ k ∧ k ∉ db.mirrors v then
    { db with vid2mirrors := setA db.vid2mirrors v (db.mirrors v ++ [k]) }
  else db

/-- The storage step of `add_edge`: append the row to the chosen shard, bump
the edge count, record the new position in that shard's Edge Index. -/
def graph_database_sharedmem.add_edge_insert (db : graph_database_sharedmem)
    (edgeHash : Nat → Nat → Nat) (source target : Nat) (data : Option graph_row) :
    graph_database_sharedmem :=
  let shardid := edgeHash source target % db.num_shards
  let row := { (data.getD (graph_row.mk_null db.edge_fields)) with is_vertex := false }
  let pr := (db.shards.getD shardid default).add_edge source target row
  { db with
    shards := db.shards.set shardid pr.2
    num_edges := db.num_edges + 1
    edge_index := db.edge_index.set shardid
      ((db.edge_index.getD shardid default).add_edge source target pr.1) }

/-- The auto-creation step of `add_edge`: insert the endpoint vertex when it
is not yet indexed (`if (!vertex_index.has_vertex(v)) add_vertex(v);`). -/
def graph_database_sharedmem.ensure_vertex (db : graph_database_sharedmem)
    (vidHash : Nat → Nat) (v : Nat) : graph_database_sharedmem :=
  if db.vertex_index.has_vertex v then db else (db.add_vertex vidHash v none).2

/-- `add_edge(source, target, data)`: stores the edge row in shard
`hash((source, target)) % num_shards`, bumps the edge count, updates that
shard's edge index, auto-creates missing endpoint vertices, then adds the
edge's shard to each endpoint's mirror set when it differs from the
endpoint's master shard (skipping shards already present). -/
def graph_database_sharedmem.add_edge (db : graph_database_sharedmem)
    (vidHash : Nat → Nat) (edgeHash : Nat → Nat → Nat)
    (source target : Nat) (data : Option graph_row) : graph_database_sharedmem :=
  let shardid := edgeHash source target % db.num_shards
  ((((db.add_edge_insert edgeHash source target data).ensure_vertex
      vidHash source).ensure_vertex vidHash target).add_mirror source
    shardid).add_mirror target shardid

/-- `find_vertex` (integer-field overload): the source body is
`ASSERT_TRUE(false); return false;` — the operation is unimplemented and
always signals failure, never producing a vid list. -/
def graph_database_sharedmem.find_vertex (db : graph_database_sharedmem)
    (fieldpos : Nat) (value : Int) : Option (List Nat) :=
  none

/-- `find_vertex` (string-field overload): same unconditional failure signal. -/
def graph_database_sharedmem.find_vertex_string (db : graph_database_sharedmem)
    (fieldpos : Nat) (value : String) : Option (List Nat) :=
  none

/-- The vertex handle (`graph_vertex_sharedmem`): vid, the row pointer
(`vdata`, a (shard, slot) locator into shard vertex storage), the master
shard id, and a defensive copy of the mirror set taken at construction. -/
structure graph_vertex_sharedmem where
  vid : Nat
  vdata : Nat × Nat
  master : Nat
  mirrors : List Nat
deriving DecidableEq

/-- `get_vertex(vid)`: looks the vid up in the Vertex Index, returns the NULL
handle (`none`) when the slot is absent or out of range, else a live handle
over `vertex_store[idx]` with the master and mirror bookkeeping. -/
def graph_database_sharedmem.get_vertex (db : graph_database_sharedmem)
    (vid : Nat) : Option graph_vertex_sharedmem :=
  match db.vertex_index.get_index vid with
  | none => none
  | some idx =>
    if idx < db.vertex_store.length then
      some { vid := vid
             vdata := db.vertex_store.getD idx default
             master := db.get_master vid
             mirrors := db.mirrors vid }
    else none

/-- `graph_vertex_sharedmem::master_shard`. -/
def graph_vertex_sharedmem.master_shard (h : graph_vertex_sharedmem) : Nat :=
  h.master

/-- `graph_vertex_sharedmem::get_num_shards`: `mirrors.size() + 1`. -/
def graph_vertex_sharedmem.get_num_shards (h : graph_vertex_sharedmem) : Nat :=
  h.mirrors.length + 1

/-- `graph_vertex_sharedmem::get_shard_list`: the mirror set as a vector. -/
def graph_vertex_sharedmem.get_shard_list (h : graph_vertex_sharedmem) : List Nat :=
  h.mirrors

/-- The field loop shared by `graph_vertex_sharedmem::write_changes` and the
row loops of `commit_shard`: post-commit every modified field of the row. -/
def graph_row.commit_modified (r : graph_row) : graph_row :=
  { r with values := r.values.map (fun v => if v.modified then v.post_commit_state else v) }

/-- Applies `f` to the row stored at locator `loc` in shard vertex storage
(the effect of mutating through a `graph_row*`). -/
def graph_database_sharedmem.update_vertex_row (db : graph_database_sharedmem)
    (loc : Nat × Nat) (f : graph_row → graph_row) : graph_database_sharedmem :=
  let shard := db.shards.getD loc.1 default
  let entry := shard.vertices.getD loc.2 default
  { db with
    shards := db.shards.set loc.1
      { shard with vertices := shard.vertices.set loc.2 (entry.1, f entry.2) } }

/-- The row a locator points at. -/
def graph_database_sharedmem.row_at (db : graph_database_sharedmem)
    (loc : Nat × Nat) : graph_row :=
  ((db.shards.getD loc.1 default).vertices.getD loc.2 default).2

/-- `graph_vertex_sharedmem::write_changes`: post-commit every modified field
of the handle's row, in place in shard storage. -/
def graph_vertex_sharedmem.write_changes (h : graph_vertex_sharedmem)
    (db : graph_database_sharedmem) : graph_database_sharedmem :=
  db.update_vertex_row h.vdata graph_row.commit_modified

/-- `write_changes_async`: same as the synchronous commit in shared memory. -/
def graph_vertex_sharedmem.write_changes_async (h : graph_vertex_sharedmem)
    (db : graph_database_sharedmem) : graph_database_sharedmem :=
  h.write_changes db

/-- `graph_vertex_sharedmem::refresh`: no effect in shared memory. -/
def graph_vertex_sharedmem.refresh (h : graph_vertex_sharedmem)
    (db : graph_database_sharedmem) : graph_database_sharedmem :=
  db

/-- `write_and_refresh`: commit immediately; refresh has no effect. -/
def graph_vertex_sharedmem.write_and_refresh (h : graph_vertex_sharedmem)
    (db : graph_database_sharedmem) : graph_database_sharedmem :=
  h.write_changes db

/-- The edge handle (`graph_edge_sharedmem`): endpoints, the row pointer
(here a (shard, position) locator), and the owning shard. -/
structure graph_edge_sharedmem where
  sourceid : Nat
  targetid : Nat
  cache : Nat × Nat
  master : Nat
deriving DecidableEq

/-- `graph_edge_sharedmem::write_changes`: empty body — a no-op on all state. -/
def graph_edge_sharedmem.write_changes (e : graph_edge_sharedmem)
    (db : graph_database_sharedmem) : graph_database_sharedmem :=
  db

/-- `graph_edge_sharedmem::write_changes_async`: empty body — a no-op. -/
def graph_edge_sharedmem.write_changes_async (e : graph_edge_sharedmem)
    (db : graph_database_sharedmem) : graph_database_sharedmem :=
  db

/-- `graph_edge_sharedmem::refresh`: empty body — a no-op. -/
def graph_edge_sharedmem.refresh (e : graph_edge_sharedmem)
    (db : graph_database_sharedmem) : graph_database_sharedmem :=
  db

/-- `graph_edge_sharedmem::write_and_refresh`: empty body — a no-op. -/
def graph_edge_sharedmem.write_and_refresh (e : graph_edge_sharedmem)
    (db : graph_database_sharedmem) : graph_database_sharedmem :=
  db

/-- The in-then-out adjacency position list the derived-shard extraction pulls
from the Edge Index of shard `b` for vertex `v` (both directions requested). -/
def graph_database_sharedmem.adj_posns (db : graph_database_sharedmem)
    (b v : Nat) : List Nat :=
  let pr := (db.edge_index.getD b default).get_edge_index true true v
  pr.1 ++ pr.2

/-- The copy loop of `get_shard_contents_adj_to`: for each position, deep-copy
the origin edge row into the new shard and append the origin position to
`edgeid`. -/
def copy_posns (origin : graph_shard) (ps : List Nat) (acc : graph_shard) :
    graph_shard :=
  ps.foldl
    (fun s p =>
      { s with
        edges := s.edges ++ [origin.edges.getD p default]
        edgeid := s.edgeid ++ [p] })
    acc

/-- `get_shard_contents_adj_to(shard_id, adjacent_to)`: build a new shard
tagged `adjacent_to` with no vertices; for every vertex stored in `shard_id`
passing the filter (`shard_id == adjacent_to` or `adjacent_to` in its mirror
set), deep-copy its full adjacency from shard `adjacent_to` (per that shard's
Edge Index), recording origin positions in `edgeid`. -/
def graph_database_sharedmem.get_shard_contents_adj_to
    (db : graph_database_sharedmem) (shard_id adjacent_to : Nat) : graph_shard :=
  let origin := db.shards.getD adjacent_to default
  let vids := (db.shards.getD shard_id default).vertices.map (fun p => p.1)
  vids.foldl
    (fun acc v =>
      if shard_id = adjacent_to ∨ adjacent_to ∈ db.mirrors v then
        copy_posns origin (db.adj_posns adjacent_to v) acc
      else acc)
    { shard_id := adjacent_to, vertices := [], edges := [], edgeid := [] }

/-- The per-row field loop of `commit_shard`'s edge phase: for every modified
field of the local row, post-commit the local value in place, then free the
origin field and deep-copy the local value over it.  Unmodified fields leave
the origin untouched. -/
def commit_step (pr : graph_row × graph_row) (j : Nat) : graph_row × graph_row :=
  if (pr.1.values.getD j default).modified then
    ({ pr.1 with values := pr.1.values.set j (pr.1.values.getD j default).post_commit_state },
     { pr.2 with values := pr.2.values.set j (pr.1.values.getD j default).post_commit_state })
  else pr

def graph_row.commit_into (lrow orow : graph_row) : graph_row × graph_row :=
  (List.range lrow.values.length).foldl commit_step (lrow, orow)

/-- The edge loop of `commit_shard`: walks the local edge rows with running
index `i`; the origin row sits at `edgeid[i]` for a derived shard and at `i`
otherwise; a missing origin row (`ASSERT_TRUE(origin != NULL)`) is the fatal
internal-consistency failure, modelled as `none`. -/
def commit_edges (derived : Bool) (edgeid : List Nat) :
    Nat → List (Nat × Nat × graph_row) → graph_shard →
    Option (List (Nat × Nat × graph_row) × graph_shard)
  | _, [], origin => some ([], origin)
  | i, e :: rest, origin =>
    let p := if derived then edgeid.getD i 0 else i
    match origin.edges.get? p with
    | none => none
    | some oe =>
      let pr := graph_row.commit_into e.2.2 oe.2.2
      let origin' := { origin with edges := origin.edges.set p (oe.1, oe.2.1, pr.2) }
      match commit_edges derived edgeid (i+1) rest origin' with
      | none => none
      | some q => some ((e.1, e.2.1, pr.1) :: q.1, q.2)

/-- `commit_shard(shard)`: post-commit every modified field of the shard's
vertex rows in place, then reconcile every edge row into the live shard
`shards[shard.id]` — through the `edgeid` back-mapping when the shard is
derived (`edgeid` non-empty).  Returns the updated database state and the
updated caller-owned shard. -/
def graph_database_sharedmem.commit_shard (db : graph_database_sharedmem)
    (shard : graph_shard) : Option (graph_database_sharedmem × graph_shard) :=
  let id := shard.shard_id
  let vcommitted := shard.vertices.map (fun p => (p.1, p.2.commit_modified))
  let derivedshard := !shard.edgeid.isEmpty
  match commit_edges derivedshard shard.edgeid 0 shard.edges (db.shards.getD id default) with
  | none => none
  | some q =>
    some ({ db with shards := db.shards.set id q.2 },
          { shard with vertices := vcommitted, edges := q.1 })

/-- A modification-API operation on the database. -/
inductive DBOp where
  | addV (vid : Nat)
  | addE (s t : Nat)
deriving DecidableEq

/-- Runs one operation (default row data, as in the testable properties). -/
def applyOp (vidHash : Nat → Nat) (edgeHash : Nat → Nat → Nat)
    (db : graph_database_sharedmem) : DBOp → graph_database_sharedmem
  | .addV v => (db.add_vertex vidHash v none).2
  | .addE s t => db.add_edge vidHash edgeHash s t none

/-- Runs a sequence of operations, left to right. -/
def runOps (vidHash : Nat → Nat) (edgeHash : Nat → Nat → Nat)
    (db : graph_database_sharedmem) : List DBOp → graph_database_sharedmem
  | [] => db
  | op :: t => runOps vidHash edgeHash (applyOp vidHash edgeHash db op) t

/-- The vids an operation sequence mentions (added or auto-created). -/
def opVids : List DBOp → List Nat
  | [] => []
  | .addV v :: t => v :: opVids t
  | .addE s t' :: t => s :: t' :: opVids t

/-- The filter of the derived-shard extraction: keep vertex `v` of shard `a`
when `a == adjacent_to` or `adjacent_to` is among `v`'s mirrors. -/
def gsca_filter (db : graph_database_sharedmem) (a b v : Nat) : Bool :=
  decide (a = b ∨ b ∈ db.mirrors v)

/-- The origin positions `get_shard_contents_adj_to` copies, in copy order. -/
def gscaL (db : graph_database_sharedmem) (a b : Nat) : List Nat :=
  (((db.shards.getD a default).vertices.map (fun p => p.1)).filter
    (gsca_filter db a b)).bind (db.adj_posns b)

/-- A one-field edge row with payload `x`, clean flags. -/
def sample_row (x : Nat) : graph_row :=
  { is_vertex := false, values := [{ data := x, old := x, modified := false, delta_commit := false }] }

/-- A small concrete database state: two shards; vertex 1 mastered in shard 0;
shard 0 stores edges (1,2) and (2,1) indexed in its Edge Index. -/
def sample_db : graph_database_sharedmem :=
  { vertex_fields := [⟨0⟩]
    edge_fields := [⟨0⟩]
    shards :=
      [ { shard_id := 0
          vertices := [(1, { is_vertex := true, values := [default] })]
          edges := [(1, 2, sample_row 5), (2, 1, sample_row 7)]
          edgeid := [] },
        { shard_id := 1, vertices := [], edges := [], edgeid := [] } ]
    vertex_store := [(0, 0)]
    vertex_index := ⟨[(1, 0)]⟩
    edge_index := [⟨[(1, 2, 0), (2, 1, 1)]⟩, ⟨[]⟩]
    vid2master := [(1, 0)]
    vid2mirrors := []
    num_edges := 2
    num_shards := 2 }

/-- A caller-side mutation of the derived shard of `sample_db`: field 0 of
edge row 0 overwritten with a value whose modified flag is set. -/
def sample_derived : graph_shard :=
  (sample_db.get_shard_contents_adj_to 0 0).set_edge_field 0 0
    (graph_value.mk 9 0 true false)

/-- The shard-list effect of mutating one vertex row in place (let-free form
of `update_vertex_row`'s shards component). -/
def upd_shards (sh : List graph_shard) (loc : Nat × Nat)
    (f : graph_row → graph_row) : List graph_shard :=
  sh.set loc.1
    { sh.getD loc.1 default with
      vertices := ((sh.getD loc.1 default).vertices.set loc.2
        (((sh.getD loc.1 default).vertices.getD loc.2 default).1,
         f ((sh.getD loc.1 default).vertices.getD loc.2 default).2)) }

/-- Identity vid hash used in concrete witnesses. -/
def vh_id : Nat → Nat := fun v => v

/-- Sum edge hash used in concrete witnesses. -/
def eh_sum : Nat → Nat → Nat := fun s t => s + t

/-- An empty two-shard database. -/
def db_two : graph_database_sharedmem := graph_database_sharedmem.init [] [] 2

/-- `db_two` after `add_edge(2, 1)` (lands in shard 1, mirrors vertex 2). -/
def db_e21 : graph_database_sharedmem := db_two.add_edge vh_id eh_sum 2 1 none

/-- The state invariant every database reachable from the constructor by
`add_vertex`/`add_edge` satisfies: shard-array sizing, hash-assigned masters,
a Vertex Index whose slots point at valid rows inside the vertex's master
shard, empty mirror sets for unindexed vids, and masters never occurring in
their own mirror set. -/
structure DBInv (vh : Nat → Nat) (n : Nat) (db : graph_database_sharedmem) : Prop where
  hns : db.num_shards = n
  hlen : db.shards.length = n
  hpos : 0 < n
  hmaster : ∀ v, db.vertex_index.has_vertex v = true → db.get_master v = vh v % n
  hindex : ∀ v i, db.vertex_index.get_index v = some i →
    i < db.vertex_store.length ∧
    (db.vertex_store.getD i default).1 = db.get_master v ∧
    (db.vertex_store.getD i default).1 < n ∧
    (db.vertex_store.getD i default).2 <
      (db.shards.getD (db.vertex_store.getD i default).1 default).vertices.length
  hunmir : ∀ v, db.vertex_index.has_vertex v = false → db.mirrors v = []
  hmnm : ∀ v, db.get_master v ∉ db.mirrors v

theorem lookupA_setA_self {α : Type} (l : List (Nat × α)) (k : Nat) (a : α) :
    lookupA (setA l k a) k = some a := by
  induction l with
  | nil => simp [setA, lookupA]
  | cons h t ih =>
    by_cases hk : h.1 = k
    · simp [setA, hk, lookupA]
    · simp [setA, hk, lookupA, ih]

theorem lookupA_setA_ne {α : Type} (l : List (Nat × α)) (k k' : Nat) (a : α)
    (h : k ≠ k') : lookupA (setA l k a) k' = lookupA l k' := by
  induction l with
  | nil => simp [setA, lookupA, h]
  | cons hd t ih =>
    by_cases hk : hd.1 = k
    · simp [setA, hk, lookupA, h]
    · simp [setA, hk, lookupA, ih]

/-- List index helper: out-of-range `set` is the identity. -/
theorem lset_oob {α : Type} (l : List α) (i : Nat) (a : α) (h : l.length ≤ i) :
    l.set i a = l := by
  induction l generalizing i with
  | nil => rfl
  | cons hd t ih =>
    cases i with
    | zero => simp at h
    | succ j => simp only [List.set]; rw [ih j (by simpa using h)]

theorem lgetD_set_self {α : Type} (l : List α) (i : Nat) (a d : α)
    (h : i < l.length) : (l.set i a).getD i d = a := by
  induction l generalizing i with
  | nil => simp at h
  | cons hd t ih =>
    cases i with
    | zero => rfl
    | succ j => simpa using ih j (by simpa using h)

theorem lgetD_set_ne {α : Type} (l : List α) (i k : Nat) (a d : α)
    (h : i ≠ k) : (l.set i a).getD k d = l.getD k d := by
  induction l generalizing i k with
  | nil => rfl
  | cons hd t ih =>
    cases i with
    | zero =>
      cases k with
      | zero => exact absurd rfl h
      | succ j => rfl
    | succ j =>
      cases k with
      | zero => rfl
      | succ m => simpa using ih j m (fun hc => h (by simp [hc]))

theorem lset_getD_self {α : Type} (l : List α) (i : Nat) (d : α)
    (h : i < l.length) : l.set i (l.getD i d) = l := by
  induction l generalizing i with
  | nil => simp at h
  | cons hd t ih =>
    cases i with
    | zero => rfl
    | succ j =>
      show hd :: t.set j (t.getD j d) = hd :: t
      rw [ih j (by simpa using h)]

theorem lgetD_append_left {α : Type} (l m : List α) (i : Nat) (d : α)
    (h : i < l.length) : (l ++ m).getD i d = l.getD i d := by
  induction l generalizing i with
  | nil => simp at h
  | cons hd t ih =>
    cases i with
    | zero => rfl
    | succ j => simpa using ih j (by simpa using h)

theorem lgetD_append_last {α : Type} (l : List α) (x d : α) :
    (l ++ [x]).getD l.length d = x := by
  induction l with
  | nil => rfl
  | cons hd t ih => simp [ih]

theorem lget?_eq_some_getD {α : Type} (l : List α) (i : Nat) (d : α)
    (h : i < l.length) : l.get? i = some (l.getD i d) := by
  induction l generalizing i with
  | nil => simp at h
  | cons hd t ih =>
    cases i with
    | zero => rfl
    | succ j => simpa using ih j (by simpa using h)

theorem lgetD_map {α β : Type} (f : α → β) (l : List α) (i : Nat) (d1 : α)
    (d2 : β) (h : i < l.length) : (l.map f).getD i d2 = f (l.getD i d1) := by
  induction l generalizing i with
  | nil => simp at h
  | cons hd t ih =>
    cases i with
    | zero => rfl
    | succ j => simpa using ih j (by simpa using h)

theorem lgetD_mem {α : Type} (l : List α) (i : Nat) (d : α)
    (h : i < l.length) : l.getD i d ∈ l := by
  induction l generalizing i with
  | nil => simp at h
  | cons hd t ih =>
    cases i with
    | zero => simp [List.getD]
    | succ j => exact List.mem_cons_of_mem _ (ih j (by simpa using h))

theorem copy_posns_spec (origin : graph_shard) (ps : List Nat) (acc : graph_shard) :
    copy_posns origin ps acc =
      { acc with
        edges := acc.edges ++ ps.map (fun p => origin.edges.getD p default)
        edgeid := acc.edgeid ++ ps } := by
  induction ps generalizing acc with
  | nil => simp [copy_posns]
  | cons p t ih =>
    show copy_posns origin t
      { acc with
        edges := acc.edges ++ [origin.edges.getD p default]
        edgeid := acc.edgeid ++ [p] } = _
    rw [ih]
    simp

theorem gsca_fold_spec (db : graph_database_sharedmem) (a b : Nat)
    (vids : List Nat) (acc : graph_shard) :
    vids.foldl
      (fun acc v =>
        if a = b ∨ b ∈ db.mirrors v then
          copy_posns (db.shards.getD b default) (db.adj_posns b v) acc
        else acc) acc =
      { acc with
        edges := acc.edges ++
          ((vids.filter (gsca_filter db a b)).bind (db.adj_posns b)).map
            (fun p => (db.shards.getD b default).edges.getD p default)
        edgeid := acc.edgeid ++
          (vids.filter (gsca_filter db a b)).bind (db.adj_posns b) } := by
  induction vids generalizing acc with
  | nil => simp
  | cons v t ih =>
    simp only [List.foldl_cons]
    by_cases h : a = b ∨ b ∈ db.mirrors v
    · rw [if_pos h, copy_posns_spec, ih]
      have hf : gsca_filter db a b v = true := by
        simp [gsca_filter, h]
      simp [hf, List.filter_cons, List.append_assoc]
    · rw [if_neg h, ih]
      have hf : gsca_filter db a b v = false := by
        simp [gsca_filter]
        tauto
      simp [hf, List.filter_cons]

theorem gsca_spec (db : graph_database_sharedmem) (a b : Nat) :
    db.get_shard_contents_adj_to a b =
      { shard_id := b
        vertices := []
        edges := (gscaL db a b).map
          (fun p => (db.shards.getD b default).edges.getD p default)
        edgeid := gscaL db a b } := by
  unfold graph_database_sharedmem.get_shard_contents_adj_to
  rw [gsca_fold_spec]
  simp [gscaL]

/-- Every position the Edge Index of shard `b` hands out for a vertex is a
real edge position of shard `b`, provided the index entries are in range. -/
theorem adj_posns_bound (db : graph_database_sharedmem) (b v p : Nat)
    (Hidx : ∀ e ∈ (db.edge_index.getD b default).entries,
      e.2.2 < (db.shards.getD b default).edges.length)
    (hp : p ∈ db.adj_posns b v) : p < (db.shards.getD b default).edges.length := by
  unfold graph_database_sharedmem.adj_posns graph_edge_index.get_edge_index at hp
  simp only [if_pos] at hp
  rcases List.mem_append.1 hp with h | h
  · unfold graph_edge_index.in_posns at h
    rcases List.mem_map.1 h with ⟨e, he, rfl⟩
    exact Hidx e (List.mem_filter.1 he).1
  · unfold graph_edge_index.out_posns at h
    rcases List.mem_map.1 h with ⟨e, he, rfl⟩
    exact Hidx e (List.mem_filter.1 he).1

/-- C1: `get_shard_contents_adj_to(shard_id, adjacent_to)` returns a shard
tagged `adjacent_to` with no vertices, with `edgeid` and edge sequences of
equal length; every returned edge is a deep copy of the edge of shard
`adjacent_to` sitting at the origin position `edgeid[i]` (a real position of
that shard when its Edge Index is in range), each copied edge comes from the
adjacency, per the Edge Index of `adjacent_to`, of some vertex stored in
`shard_id` passing the filter `shard_id == adjacent_to` or `adjacent_to` in
the vertex's mirrors, and conversely every adjacency position of every such
filtered vertex is copied; in the self-adjacent case the filter passes every
vertex of the shard, so the full adjacency of `shard_id`'s own vertices is
returned. -/
theorem C1_get_shard_contents_adj_to
    (db : graph_database_sharedmem) (a b : Nat)
    (Hidx : ∀ e ∈ (db.edge_index.getD b default).entries,
      e.2.2 < (db.shards.getD b default).edges.length) :
    (db.get_shard_contents_adj_to a b).shard_id = b ∧
    (db.get_shard_contents_adj_to a b).vertices = [] ∧
    (db.get_shard_contents_adj_to a b).edgeid.length =
      (db.get_shard_contents_adj_to a b).edges.length ∧
    (∀ i, i < (db.get_shard_contents_adj_to a b).edges.length →
      (db.get_shard_contents_adj_to a b).edges.getD i default =
        (db.shards.getD b default).edges.getD
          ((db.get_shard_contents_adj_to a b).edgeid.getD i 0) default ∧
      (db.get_shard_contents_adj_to a b).edgeid.getD i 0 <
        (db.shards.getD b default).edges.length) ∧
    (∀ i, i < (db.get_shard_contents_adj_to a b).edges.length →
      ∃ v, v ∈ (db.shards.getD a default).vertices.map (fun p => p.1) ∧
        (a = b ∨ b ∈ db.mirrors v) ∧
        (db.get_shard_contents_adj_to a b).edgeid.getD i 0 ∈ db.adj_posns b v) ∧
    (∀ v, v ∈ (db.shards.getD a default).vertices.map (fun p => p.1) →
      (a = b ∨ b ∈ db.mirrors v) →
      ∀ p, p ∈ db.adj_posns b v → p ∈ (db.get_shard_contents_adj_to a b).edgeid) ∧
    (a = b → (db.get_shard_contents_adj_to a b).edgeid =
      ((db.shards.getD a default).vertices.map (fun p => p.1)).bind
        (db.adj_posns b)) := by
  rw [gsca_spec]
  refine ⟨rfl, rfl, by simp, ?_, ?_, ?_, ?_⟩
  · intro i hi
    simp only [List.length_map] at hi
    constructor
    · rw [lgetD_map (fun p => (db.shards.getD b default).edges.getD p default)
        (gscaL db a b) i 0 default hi]
    · have hmem : (gscaL db a b).getD i 0 ∈ gscaL db a b := lgetD_mem _ i 0 hi
      rcases List.mem_bind.1 hmem with ⟨v, hv, hp⟩
      exact adj_posns_bound db b v _ Hidx hp
  · intro i hi
    simp only [List.length_map] at hi
    have hmem : (gscaL db a b).getD i 0 ∈ gscaL db a b := lgetD_mem _ i 0 hi
    rcases List.mem_bind.1 hmem with ⟨v, hv, hp⟩
    have hv' := List.mem_filter.1 hv
    refine ⟨v, hv'.1, ?_, hp⟩
    have := hv'.2
    simpa [gsca_filter] using this
  · intro v hv hfil p hp
    refine List.mem_bind.2 ⟨v, ?_, hp⟩
    exact List.mem_filter.2 ⟨hv, by simp [gsca_filter]; exact hfil⟩
  · intro hab
    show gscaL db a b = _
    unfold gscaL
    congr 1
    apply List.filter_eq_self.2
    intro v hv
    simp [gsca_filter, hab]

/-- Witness for C1 at the concrete state `sample_db` with the self-adjacent
call on shard 0. -/
theorem C1_get_shard_contents_adj_to_witness :
    (∀ e ∈ (sample_db.edge_index.getD 0 default).entries,
      e.2.2 < (sample_db.shards.getD 0 default).edges.length) ∧
    ((sample_db.get_shard_contents_adj_to 0 0).shard_id = 0 ∧
    (sample_db.get_shard_contents_adj_to 0 0).vertices = [] ∧
    (sample_db.get_shard_contents_adj_to 0 0).edgeid.length =
      (sample_db.get_shard_contents_adj_to 0 0).edges.length ∧
    (∀ i, i < (sample_db.get_shard_contents_adj_to 0 0).edges.length →
      (sample_db.get_shard_contents_adj_to 0 0).edges.getD i default =
        (sample_db.shards.getD 0 default).edges.getD
          ((sample_db.get_shard_contents_adj_to 0 0).edgeid.getD i 0) default ∧
      (sample_db.get_shard_contents_adj_to 0 0).edgeid.getD i 0 <
        (sample_db.shards.getD 0 default).edges.length) ∧
    (∀ i, i < (sample_db.get_shard_contents_adj_to 0 0).edges.length →
      ∃ v, v ∈ (sample_db.shards.getD 0 default).vertices.map (fun p => p.1) ∧
        ((0 : Nat) = 0 ∨ (0 : Nat) ∈ sample_db.mirrors v) ∧
        (sample_db.get_shard_contents_adj_to 0 0).edgeid.getD i 0 ∈
          sample_db.adj_posns 0 v) ∧
    (∀ v, v ∈ (sample_db.shards.getD 0 default).vertices.map (fun p => p.1) →
      ((0 : Nat) = 0 ∨ (0 : Nat) ∈ sample_db.mirrors v) →
      ∀ p, p ∈ sample_db.adj_posns 0 v →
        p ∈ (sample_db.get_shard_contents_adj_to 0 0).edgeid) ∧
    ((0 : Nat) = 0 → (sample_db.get_shard_contents_adj_to 0 0).edgeid =
      ((sample_db.shards.getD 0 default).vertices.map (fun p => p.1)).bind
        (sample_db.adj_posns 0))) :=
  ⟨by decide, C1_get_shard_contents_adj_to sample_db 0 0 (by decide)⟩

theorem lgetD_oob {α : Type} (l : List α) (i : Nat) (d : α)
    (h : l.length ≤ i) : l.getD i d = d := by
  induction l generalizing i with
  | nil => rfl
  | cons hd t ih =>
    cases i with
    | zero => simp at h
    | succ j => simpa using ih j (by simpa using h)

theorem commit_step_of_modified (pr : graph_row × graph_row) (j : Nat)
    (h : (pr.1.values.getD j default).modified = true) :
    commit_step pr j =
      ({ pr.1 with values := pr.1.values.set j (pr.1.values.getD j default).post_commit_state },
       { pr.2 with values := pr.2.values.set j (pr.1.values.getD j default).post_commit_state }) := by
  unfold commit_step
  rw [h]
  rfl

theorem commit_step_of_unmodified (pr : graph_row × graph_row) (j : Nat)
    (h : (pr.1.values.getD j default).modified = false) :
    commit_step pr j = pr := by
  unfold commit_step
  rw [h]
  rfl

theorem commit_step_id (s : graph_row × graph_row)
    (h : ∀ j, (s.1.values.getD j default).modified = false) :
    ∀ L : List Nat, L.foldl commit_step s = s := by
  intro L
  induction L with
  | nil => rfl
  | cons x t ih =>
    rw [List.foldl_cons, commit_step_of_unmodified s x (h x), ih]

theorem commit_into_unmodified (lrow orow : graph_row)
    (h : ∀ j, (lrow.values.getD j default).modified = false) :
    lrow.commit_into orow = (lrow, orow) := by
  unfold graph_row.commit_into
  exact commit_step_id (lrow, orow) h _

theorem commit_into_single (lrow orow : graph_row) (j : Nat)
    (hj : (lrow.values.getD j default).modified = true)
    (hother : ∀ j', j' ≠ j → (lrow.values.getD j' default).modified = false) :
    lrow.commit_into orow =
      ({ lrow with values :=
          lrow.values.set j (lrow.values.getD j default).post_commit_state },
       { orow with values :=
          orow.values.set j (lrow.values.getD j default).post_commit_state }) := by
  have hjlt : j < lrow.values.length := by
    by_contra hge
    rw [lgetD_oob _ _ _ (Nat.le_of_not_lt hge)] at hj
    exact absurd hj (by decide)
  have key : ∀ L : List Nat, L.Nodup → j ∈ L →
      L.foldl commit_step (lrow, orow) =
        ({ lrow with values :=
            lrow.values.set j (lrow.values.getD j default).post_commit_state },
         { orow with values :=
            orow.values.set j (lrow.values.getD j default).post_commit_state }) := by
    intro L
    induction L with
    | nil => intro _ hmem; simp at hmem
    | cons x t ih =>
      intro hnd hmem
      rw [List.foldl_cons]
      by_cases hx : x = j
      · subst hx
        rw [commit_step_of_modified (lrow, orow) x hj]
        apply commit_step_id
        intro j'
        show ((lrow.values.set x
          (lrow.values.getD x default).post_commit_state).getD j' default).modified = false
        by_cases hj' : j' = x
        · subst hj'
          rw [lgetD_set_self _ _ _ _ hjlt]
          rfl
        · rw [lgetD_set_ne _ _ _ _ _ (fun hc => hj' hc.symm)]
          exact hother j' hj'
      · rw [commit_step_of_unmodified (lrow, orow) x (hother x hx)]
        have hmem' : j ∈ t := by
          rcases List.mem_cons.1 hmem with h | h
          · exact absurd h.symm hx
          · exact h
        exact ih (List.Nodup.of_cons hnd) hmem'
  unfold graph_row.commit_into
  exact key _ (List.nodup_range _) (List.mem_range.2 hjlt)

theorem commit_edges_unmodified (derived : Bool) (edgeid : List Nat)
    (edges : List (Nat × Nat × graph_row)) :
    ∀ (i0 : Nat) (origin : graph_shard),
    (∀ e ∈ edges, ∀ j, ((e.2.2).values.getD j default).modified = false) →
    (∀ k, k < edges.length →
      (if derived then edgeid.getD (i0 + k) 0 else i0 + k) < origin.edges.length) →
    commit_edges derived edgeid i0 edges origin = some (edges, origin) := by
  induction edges with
  | nil => intro i0 origin _ _; rfl
  | cons e rest ih =>
    intro i0 origin hunmod hpos
    have hp0 : (if derived then edgeid.getD i0 0 else i0) < origin.edges.length := by
      have h := hpos 0 (by simp)
      simpa using h
    have hoe : origin.edges.get? (if derived then edgeid.getD i0 0 else i0) =
        some (origin.edges.getD (if derived then edgeid.getD i0 0 else i0) default) :=
      lget?_eq_some_getD _ _ _ hp0
    have hci : (e.2.2).commit_into
        (origin.edges.getD (if derived then edgeid.getD i0 0 else i0) default).2.2 =
        (e.2.2, (origin.edges.getD (if derived then edgeid.getD i0 0 else i0) default).2.2) :=
      commit_into_unmodified _ _ (hunmod e (List.mem_cons_self e rest))
    have hsetid : origin.edges.set (if derived then edgeid.getD i0 0 else i0)
        ((origin.edges.getD (if derived then edgeid.getD i0 0 else i0) default).1,
         (origin.edges.getD (if derived then edgeid.getD i0 0 else i0) default).2.1,
         (origin.edges.getD (if derived then edgeid.getD i0 0 else i0) default).2.2) =
        origin.edges := by
      exact lset_getD_self _ _ _ hp0
    have hrec := ih (i0 + 1) origin
      (fun e' he' => hunmod e' (List.mem_cons_of_mem _ he'))
      (by
        intro k hk
        have h := hpos (k + 1) (by simpa using Nat.succ_lt_succ hk)
        have harith : i0 + (k + 1) = i0 + 1 + k := by omega
        rw [harith] at h
        exact h)
    simp only [commit_edges, hoe, hci, hsetid]
    rw [hrec]

theorem commit_edges_single (derived : Bool) (edgeid : List Nat)
    (edges : List (Nat × Nat × graph_row)) (j : Nat) :
    ∀ (m i0 : Nat) (origin : graph_shard),
    m < edges.length →
    (((edges.getD m default).2.2).values.getD j default).modified = true →
    (∀ j', j' ≠ j →
      (((edges.getD m default).2.2).values.getD j' default).modified = false) →
    (∀ k, k ≠ m → ∀ j',
      (((edges.getD k default).2.2).values.getD j' default).modified = false) →
    (∀ k, k < edges.length →
      (if derived then edgeid.getD (i0 + k) 0 else i0 + k) < origin.edges.length) →
    commit_edges derived edgeid i0 edges origin =
      some
        (edges.set m
          ((edges.getD m default).1, (edges.getD m default).2.1,
            { (edges.getD m default).2.2 with
              values := (((edges.getD m default).2.2).values.set j (((edges.getD m default).2.2).values.getD j default).post_commit_state) }),
         { origin with
           edges := (origin.edges.set (if derived then edgeid.getD (i0 + m) 0 else i0 + m)
              ((origin.edges.getD (if derived then edgeid.getD (i0 + m) 0 else i0 + m) default).1,
               (origin.edges.getD (if derived then edgeid.getD (i0 + m) 0 else i0 + m) default).2.1,
               { (origin.edges.getD (if derived then edgeid.getD (i0 + m) 0 else i0 + m) default).2.2 with
                 values := (((origin.edges.getD (if derived then edgeid.getD (i0 + m) 0 else i0 + m) default).2.2).values.set j (((edges.getD m default).2.2).values.getD j default).post_commit_state) })) }) := by
  induction edges with
  | nil =>
    intro m i0 origin hm _ _ _ _
    simp at hm
  | cons e rest ih =>
    intro m i0 origin hm hmod hrowother hother hpos
    have hp0 : (if derived then edgeid.getD i0 0 else i0) < origin.edges.length := by
      have h := hpos 0 (by simp)
      simpa using h
    have hoe : origin.edges.get? (if derived then edgeid.getD i0 0 else i0) =
        some (origin.edges.getD (if derived then edgeid.getD i0 0 else i0) default) :=
      lget?_eq_some_getD _ _ _ hp0
    cases m with
    | zero =>
      have he0 : ((e :: rest).getD 0 default) = e := rfl
      rw [he0] at hmod hrowother
      have hci : (e.2.2).commit_into
          (origin.edges.getD (if derived then edgeid.getD i0 0 else i0) default).2.2 =
          ({ e.2.2 with
             values := ((e.2.2).values.set j ((e.2.2).values.getD j default).post_commit_state) },
           { (origin.edges.getD (if derived then edgeid.getD i0 0 else i0) default).2.2 with
             values := (((origin.edges.getD (if derived then edgeid.getD i0 0 else i0) default).2.2).values.set j ((e.2.2).values.getD j default).post_commit_state) }) :=
        commit_into_single _ _ j hmod hrowother
      have hrest := commit_edges_unmodified derived edgeid rest (i0 + 1)
        { origin with
          edges := (origin.edges.set (if derived then edgeid.getD i0 0 else i0)
              ((origin.edges.getD (if derived then edgeid.getD i0 0 else i0) default).1,
               (origin.edges.getD (if derived then edgeid.getD i0 0 else i0) default).2.1,
               { (origin.edges.getD (if derived then edgeid.getD i0 0 else i0) default).2.2 with
                 values := (((origin.edges.getD (if derived then edgeid.getD i0 0 else i0) default).2.2).values.set j ((e.2.2).values.getD j default).post_commit_state) })) }
        (by
          intro e' he' j'
          rcases List.mem_iff_get.1 he' with ⟨⟨k, hk⟩, hget⟩
          have hgd : rest.getD k default = e' := by
            rw [← hget]
            exact List.getD_eq_get rest default hk
          have h := hother (k + 1) (by simp) j'
          rw [show ((e :: rest).getD (k + 1) default) = rest.getD k default from rfl, hgd] at h
          exact h)
        (by
          intro k hk
          have h := hpos (k + 1) (by simpa using Nat.succ_lt_succ hk)
          have harith : i0 + (k + 1) = i0 + 1 + k := by omega
          rw [harith] at h
          simpa using h)
      simp only [commit_edges, hoe, hci]
      rw [hrest]
      simp
    | succ m' =>
      have hci : (e.2.2).commit_into
          (origin.edges.getD (if derived then edgeid.getD i0 0 else i0) default).2.2 =
          (e.2.2,
           (origin.edges.getD (if derived then edgeid.getD i0 0 else i0) default).2.2) :=
        commit_into_unmodified _ _ (fun j' => hother 0 (by simp) j')
      have hsetid : origin.edges.set (if derived then edgeid.getD i0 0 else i0)
          ((origin.edges.getD (if derived then edgeid.getD i0 0 else i0) default).1,
           (origin.edges.getD (if derived then edgeid.getD i0 0 else i0) default).2.1,
           (origin.edges.getD (if derived then edgeid.getD i0 0 else i0) default).2.2) =
          origin.edges :=
        lset_getD_self _ _ _ hp0
      have hrec := ih m' (i0 + 1) origin
        (by simpa using Nat.lt_of_succ_lt_succ hm)
        (by
          rw [show ((e :: rest).getD (m' + 1) default) = rest.getD m' default from rfl] at hmod
          exact hmod)
        (by
          intro j' hj'
          have h := hrowother j' hj'
          rw [show ((e :: rest).getD (m' + 1) default) = rest.getD m' default from rfl] at h
          exact h)
        (by
          intro k hk j'
          have h := hother (k + 1) (by simpa using hk) j'
          rw [show ((e :: rest).getD (k + 1) default) = rest.getD k default from rfl] at h
          exact h)
        (by
          intro k hk
          have h := hpos (k + 1) (by simpa using Nat.succ_lt_succ hk)
          have harith : i0 + (k + 1) = i0 + 1 + k := by omega
          rw [harith] at h
          exact h)
      simp only [commit_edges, hoe, hci, hsetid]
      rw [hrec]
      have harith : i0 + 1 + m' = i0 + (m' + 1) := by omega
      simp [harith]

theorem commit_shard_eq (db : graph_database_sharedmem) (shard : graph_shard)
    (q : List (Nat × Nat × graph_row) × graph_shard)
    (h : commit_edges (!shard.edgeid.isEmpty) shard.edgeid 0 shard.edges
      (db.shards.getD shard.shard_id default) = some q) :
    db.commit_shard shard =
      some ({ db with shards := db.shards.set shard.shard_id q.2 },
            { shard with
              vertices := shard.vertices.map (fun p => (p.1, p.2.commit_modified))
              edges := q.1 }) := by
  simp only [graph_database_sharedmem.commit_shard, h]

/-- C2: committing a derived shard `d = get_shard_contents_adj_to(a, b)` in
which exactly one field `j` of one edge row `i` is marked modified deep-copies
that field's post-committed value into field `j` of the origin row at position
`edgeid[i]` of the live shard `b`, and leaves every other field and every
other row of shard `b` (and all other database state) unchanged: the new
state is exactly the old one with that single list position updated. -/
theorem C2_commit_derived_roundtrip
    (db : graph_database_sharedmem) (a b i j : Nat) (nv : graph_value)
    (d : graph_shard)
    (Hd : d = (db.get_shard_contents_adj_to a b).set_edge_field i j nv)
    (Hidx : ∀ e ∈ (db.edge_index.getD b default).entries,
      e.2.2 < (db.shards.getD b default).edges.length)
    (Hmod : d.edge_field_modified i j = true)
    (Hno : ∀ i', i' < d.edges.length → ∀ j',
      j' < ((d.edges.getD i' default).2.2).values.length →
      (i' ≠ i ∨ j' ≠ j) → d.edge_field_modified i' j' = false)
    (Hne : d.edgeid ≠ []) :
    ∃ d', db.commit_shard d =
      some
        ({ db with
           shards := (db.shards.set b
            { db.shards.getD b default with
              edges := ((db.shards.getD b default).edges.set (d.edgeid.getD i 0)
                (((db.shards.getD b default).edges.getD (d.edgeid.getD i 0) default).1,
                 ((db.shards.getD b default).edges.getD (d.edgeid.getD i 0) default).2.1,
                 { ((db.shards.getD b default).edges.getD (d.edgeid.getD i 0) default).2.2 with
                   values := ((((db.shards.getD b default).edges.getD (d.edgeid.getD i 0) default).2.2).values.set j (((d.edges.getD i default).2.2).values.getD j default).post_commit_state) })) }) },
         d') := by
  have hid : d.shard_id = b := by
    rw [Hd]
    show (db.get_shard_contents_adj_to a b).shard_id = b
    rw [gsca_spec]
  have hedgeid : d.edgeid = gscaL db a b := by
    rw [Hd]
    show (db.get_shard_contents_adj_to a b).edgeid = gscaL db a b
    rw [gsca_spec]
  have hlen : d.edges.length = (gscaL db a b).length := by
    rw [Hd]
    unfold graph_shard.set_edge_field
    rw [gsca_spec]
    simp
  have hmlt : i < d.edges.length := by
    by_contra hge
    unfold graph_shard.edge_field_modified at Hmod
    rw [lgetD_oob _ _ _ (Nat.le_of_not_lt hge)] at Hmod
    exact Bool.noConfusion Hmod
  have hmod' : (((d.edges.getD i default).2.2).values.getD j default).modified = true := by
    unfold graph_shard.edge_field_modified at Hmod
    exact Hmod
  have hrowother : ∀ j', j' ≠ j →
      (((d.edges.getD i default).2.2).values.getD j' default).modified = false := by
    intro j' hj'
    by_cases hb : j' < ((d.edges.getD i default).2.2).values.length
    · have h := Hno i hmlt j' hb (Or.inr hj')
      unfold graph_shard.edge_field_modified at h
      exact h
    · rw [lgetD_oob _ _ _ (Nat.le_of_not_lt hb)]
      rfl
  have hother : ∀ k, k ≠ i → ∀ j',
      (((d.edges.getD k default).2.2).values.getD j' default).modified = false := by
    intro k hk j'
    by_cases hbk : k < d.edges.length
    · by_cases hbj : j' < ((d.edges.getD k default).2.2).values.length
      · have h := Hno k hbk j' hbj (Or.inl hk)
        unfold graph_shard.edge_field_modified at h
        exact h
      · rw [lgetD_oob _ _ _ (Nat.le_of_not_lt hbj)]
        rfl
    · rw [lgetD_oob _ _ _ (Nat.le_of_not_lt hbk)]
      rfl
  have hde : (!d.edgeid.isEmpty) = true := by
    cases hdq : d.edgeid with
    | nil => exact absurd hdq Hne
    | cons x t => rfl
  have hposAll : ∀ k, k < d.edges.length →
      (if !d.edgeid.isEmpty then d.edgeid.getD (0 + k) 0 else 0 + k) <
        (db.shards.getD b default).edges.length := by
    intro k hk
    rw [hde, if_pos rfl]
    have hk' : k < (gscaL db a b).length := by rw [← hlen]; exact hk
    have hmem : (gscaL db a b).getD k 0 ∈ gscaL db a b := lgetD_mem _ _ _ hk'
    rcases List.mem_bind.1 hmem with ⟨v, hv, hp⟩
    have hbd := adj_posns_bound db b v ((gscaL db a b).getD k 0) Hidx hp
    rw [hedgeid, Nat.zero_add]
    exact hbd
  have hE2 := commit_edges_single (!d.edgeid.isEmpty) d.edgeid d.edges j i 0
    (db.shards.getD b default) hmlt hmod' hrowother hother hposAll
  rw [← hid] at hE2
  have hcommit := commit_shard_eq db d _ hE2
  rw [hid] at hcommit
  rw [hde] at hcommit
  simp only [Nat.zero_add, eq_self_iff_true, if_true] at hcommit
  exact ⟨_, hcommit⟩

/-- Witness for C2: committing the mutated derived shard of `sample_db`
updates exactly one origin position of shard 0. -/
theorem C2_commit_derived_roundtrip_witness :
    (∀ e ∈ (sample_db.edge_index.getD 0 default).entries,
      e.2.2 < (sample_db.shards.getD 0 default).edges.length) ∧
    sample_derived.edge_field_modified 0 0 = true ∧
    (∀ i', i' < sample_derived.edges.length → ∀ j',
      j' < ((sample_derived.edges.getD i' default).2.2).values.length →
      (i' ≠ 0 ∨ j' ≠ 0) → sample_derived.edge_field_modified i' j' = false) ∧
    sample_derived.edgeid ≠ [] ∧
    (∃ d', sample_db.commit_shard sample_derived =
      some
        ({ sample_db with
           shards := (sample_db.shards.set 0
            { sample_db.shards.getD 0 default with
              edges := ((sample_db.shards.getD 0 default).edges.set
                  (sample_derived.edgeid.getD 0 0)
                (((sample_db.shards.getD 0 default).edges.getD (sample_derived.edgeid.getD 0 0) default).1,
                 ((sample_db.shards.getD 0 default).edges.getD (sample_derived.edgeid.getD 0 0) default).2.1,
                 { ((sample_db.shards.getD 0 default).edges.getD (sample_derived.edgeid.getD 0 0) default).2.2 with
                   values := ((((sample_db.shards.getD 0 default).edges.getD (sample_derived.edgeid.getD 0 0) default).2.2).values.set 0 (((sample_derived.edges.getD 0 default).2.2).values.getD 0 default).post_commit_state) })) }) },
         d')) :=
  ⟨by decide, by decide, by decide, by decide,
   C2_commit_derived_roundtrip sample_db 0 0 0 0 (graph_value.mk 9 0 true false)
     sample_derived rfl (by decide) (by decide) (by decide) (by decide)⟩

theorem update_vertex_row_eq (db : graph_database_sharedmem) (loc : Nat × Nat)
    (f : graph_row → graph_row) :
    db.update_vertex_row loc f = { db with shards := upd_shards db.shards loc f } := rfl

theorem update_update_eq (db : graph_database_sharedmem) (loc : Nat × Nat)
    (f : graph_row → graph_row) :
    (db.update_vertex_row loc f).update_vertex_row loc f =
      { db with shards := upd_shards (upd_shards db.shards loc f) loc f } := rfl

theorem upd_shards_twice (sh : List graph_shard) (loc : Nat × Nat)
    (f : graph_row → graph_row) (hf : ∀ r, f (f r) = f r) :
    upd_shards (upd_shards sh loc f) loc f = upd_shards sh loc f := by
  by_cases h1 : loc.1 < sh.length
  · by_cases h2 : loc.2 < (sh.getD loc.1 default).vertices.length
    · simp only [upd_shards]
      rw [lgetD_set_self _ _ _ _ h1]
      simp only [List.set_set]
      rw [lgetD_set_self _ _ _ _ h2]
      rw [hf]
    · have hnoop1 : upd_shards sh loc f = sh := by
        simp only [upd_shards]
        rw [lset_oob _ _ _ (Nat.le_of_not_lt h2)]
        show sh.set loc.1 (sh.getD loc.1 default) = sh
        exact lset_getD_self _ _ _ h1
      rw [hnoop1]
      exact hnoop1
  · have hnoop2 : ∀ t : List graph_shard, t.length = sh.length → upd_shards t loc f = t := by
      intro t ht
      simp only [upd_shards]
      apply lset_oob
      rw [ht]
      exact Nat.le_of_not_lt h1
    rw [hnoop2 sh rfl]
    exact hnoop2 sh rfl

theorem post_commit_unmodified (v : graph_value) :
    v.post_commit_state.modified = false := rfl

theorem commit_modified_idem (r : graph_row) :
    r.commit_modified.commit_modified = r.commit_modified := by
  unfold graph_row.commit_modified
  simp only [List.map_map]
  have hgg : ((fun v : graph_value => if v.modified then v.post_commit_state else v) ∘
      (fun v : graph_value => if v.modified then v.post_commit_state else v)) =
      (fun v : graph_value => if v.modified then v.post_commit_state else v) := by
    funext v
    by_cases h : v.modified
    · simp [h, graph_value.post_commit_state]
    · simp [h]
  rw [hgg]

theorem commit_modified_clears (r : graph_row) :
    ∀ v ∈ r.commit_modified.values, v.modified = false := by
  intro v hv
  unfold graph_row.commit_modified at hv
  rcases List.mem_map.1 hv with ⟨w, hw, rfl⟩
  by_cases h : w.modified
  · simp [h, graph_value.post_commit_state]
  · simp [h]

theorem upd_shards_cleared (sh : List graph_shard) (loc : Nat × Nat) :
    ∀ v ∈ (((upd_shards sh loc graph_row.commit_modified).getD loc.1
      default).vertices.getD loc.2 default).2.values, v.modified = false := by
  by_cases h1 : loc.1 < sh.length
  · by_cases h2 : loc.2 < (sh.getD loc.1 default).vertices.length
    · simp only [upd_shards]
      rw [lgetD_set_self _ _ _ _ h1]
      show ∀ v ∈ (((sh.getD loc.1 default).vertices.set loc.2
        (((sh.getD loc.1 default).vertices.getD loc.2 default).1,
         ((sh.getD loc.1 default).vertices.getD loc.2 default).2.commit_modified)).getD
          loc.2 default).2.values, v.modified = false
      rw [lgetD_set_self _ _ _ _ h2]
      exact commit_modified_clears _
    · simp only [upd_shards]
      rw [lset_oob _ _ _ (Nat.le_of_not_lt h2)]
      rw [lgetD_set_self _ _ _ _ h1]
      show ∀ v ∈ ((sh.getD loc.1 default).vertices.getD loc.2 default).2.values,
        v.modified = false
      rw [lgetD_oob _ _ _ (Nat.le_of_not_lt h2)]
      intro v hv
      exact absurd hv (List.not_mem_nil v)
  · simp only [upd_shards]
    rw [lset_oob _ _ _ (Nat.le_of_not_lt h1)]
    rw [lgetD_oob _ _ _ (Nat.le_of_not_lt h1)]
    intro v hv
    exact absurd hv (List.not_mem_nil v)

/-- C6: `write_changes()` on a vertex handle is idempotent — after the first
call the referenced row carries no modified flag, so a second call leaves the
whole database state (in particular the row) exactly as after the first. -/
theorem C6_write_changes_idempotent :
    ∀ (h : graph_vertex_sharedmem) (db : graph_database_sharedmem),
      h.write_changes (h.write_changes db) = h.write_changes db ∧
      (∀ v ∈ ((h.write_changes db).row_at h.vdata).values, v.modified = false) := by
  intro h db
  constructor
  · show (db.update_vertex_row h.vdata graph_row.commit_modified).update_vertex_row
      h.vdata graph_row.commit_modified =
      db.update_vertex_row h.vdata graph_row.commit_modified
    rw [update_update_eq, update_vertex_row_eq,
      upd_shards_twice _ _ _ commit_modified_idem]
  · show ∀ v ∈ (((upd_shards db.shards h.vdata graph_row.commit_modified).getD
      h.vdata.1 default).vertices.getD h.vdata.2 default).2.values, v.modified = false
    exact upd_shards_cleared db.shards h.vdata

/-- C8: both `find_vertex` overloads unconditionally signal failure (`none`,
the distinct "unsupported" outcome of the `ASSERT_TRUE(false)` body), for
every field position and value — never a vid list, empty or otherwise. -/
theorem C8_find_vertex_unsupported :
    ∀ (db : graph_database_sharedmem) (fieldpos : Nat) (iv : Int) (sv : String),
      db.find_vertex fieldpos iv = none ∧ db.find_vertex_string fieldpos sv = none :=
  fun _ _ _ _ => ⟨rfl, rfl⟩

/-- C9: the four synchronization calls of the shared-memory edge handle have
empty bodies — each returns the database state (rows, flags and all) exactly
as given. -/
theorem C9_edge_handle_noops :
    ∀ (e : graph_edge_sharedmem) (db : graph_database_sharedmem),
      e.write_changes db = db ∧ e.write_changes_async db = db ∧
      e.refresh db = db ∧ e.write_and_refresh db = db :=
  fun _ _ => ⟨rfl, rfl, rfl, rfl⟩

theorem add_vertex_mirrors (db : graph_database_sharedmem) (vh : Nat → Nat)
    (v : Nat) (data : Option graph_row) (w : Nat) :
    ((db.add_vertex vh v data).2).mirrors w = db.mirrors w := by
  unfold graph_database_sharedmem.add_vertex
  by_cases h : db.vertex_index.has_vertex v <;>
    simp [h, graph_database_sharedmem.mirrors]

theorem add_vertex_num_shards (db : graph_database_sharedmem) (vh : Nat → Nat)
    (v : Nat) (data : Option graph_row) :
    ((db.add_vertex vh v data).2).num_shards = db.num_shards := by
  unfold graph_database_sharedmem.add_vertex
  by_cases h : db.vertex_index.has_vertex v <;> simp [h]

theorem add_vertex_num_edges (db : graph_database_sharedmem) (vh : Nat → Nat)
    (v : Nat) (data : Option graph_row) :
    ((db.add_vertex vh v data).2).num_edges = db.num_edges := by
  unfold graph_database_sharedmem.add_vertex
  by_cases h : db.vertex_index.has_vertex v <;> simp [h]

theorem add_vertex_has (db : graph_database_sharedmem) (vh : Nat → Nat)
    (v : Nat) (data : Option graph_row) (w : Nat) :
    ((db.add_vertex vh v data).2).vertex_index.has_vertex w =
      (db.vertex_index.has_vertex w || w == v) := by
  unfold graph_database_sharedmem.add_vertex
  by_cases h : db.vertex_index.has_vertex v
  · rw [if_pos h]
    by_cases hw : w = v
    · subst hw
      simp [h]
    · simp [hw]
  · rw [if_neg h]
    show (db.vertex_index.add_vertex v db.vertex_store.length).has_vertex w = _
    unfold graph_vertex_index.has_vertex graph_vertex_index.get_index
      graph_vertex_index.add_vertex
    by_cases hw : v = w
    · subst hw
      simp [lookupA]
    · simp only [lookupA, if_neg hw]
      have : (w == v) = false := by
        simp
        exact fun hc => hw hc.symm
      rw [this]
      simp [graph_vertex_index.has_vertex, graph_vertex_index.get_index]

theorem add_vertex_master_stable (db : graph_database_sharedmem) (vh : Nat → Nat)
    (v : Nat) (data : Option graph_row) (w : Nat)
    (hw : db.vertex_index.has_vertex w = true) :
    ((db.add_vertex vh v data).2).get_master w = db.get_master w := by
  unfold graph_database_sharedmem.add_vertex
  by_cases h : db.vertex_index.has_vertex v
  · simp [h]
  · rw [if_neg h]
    show (lookupA (setA db.vid2master v (vh v % db.num_shards)) w).getD 0 = _
    have hvw : v ≠ w := by
      intro he
      rw [he] at h
      exact h hw
    rw [lookupA_setA_ne _ _ _ _ hvw]
    rfl

theorem add_vertex_master_new (db : graph_database_sharedmem) (vh : Nat → Nat)
    (v : Nat) (data : Option graph_row)
    (h : db.vertex_index.has_vertex v = false) :
    ((db.add_vertex vh v data).2).get_master v = vh v % db.num_shards := by
  unfold graph_database_sharedmem.add_vertex
  rw [if_neg (by simp [h])]
  show (lookupA (setA db.vid2master v (vh v % db.num_shards)) v).getD 0 = _
  rw [lookupA_setA_self]
  rfl

theorem add_vertex_edges (db : graph_database_sharedmem) (vh : Nat → Nat)
    (v : Nat) (data : Option graph_row) (i : Nat) :
    (((db.add_vertex vh v data).2).shards.getD i default).edges =
      (db.shards.getD i default).edges := by
  unfold graph_database_sharedmem.add_vertex
  by_cases h : db.vertex_index.has_vertex v
  · simp [h]
  · rw [if_neg h]
    show ((db.shards.set (vh v % db.num_shards)
      ((db.shards.getD (vh v % db.num_shards) default).add_vertex v _).2).getD
        i default).edges = _
    by_cases hm : vh v % db.num_shards < db.shards.length
    · by_cases hi : i = vh v % db.num_shards
      · subst hi
        rw [lgetD_set_self _ _ _ _ hm]
        rfl
      · rw [lgetD_set_ne _ _ _ _ _ (fun hc => hi hc.symm)]
    · rw [lset_oob _ _ _ (Nat.le_of_not_lt hm)]

theorem ensure_vertex_mirrors (db : graph_database_sharedmem) (vh : Nat → Nat)
    (v w : Nat) :
    (db.ensure_vertex vh v).mirrors w = db.mirrors w := by
  unfold graph_database_sharedmem.ensure_vertex
  by_cases h : db.vertex_index.has_vertex v
  · rw [if_pos h]
  · rw [if_neg h]
    exact add_vertex_mirrors db vh v none w

theorem ensure_vertex_has (db : graph_database_sharedmem) (vh : Nat → Nat)
    (v w : Nat) :
    (db.ensure_vertex vh v).vertex_index.has_vertex w =
      (db.vertex_index.has_vertex w || w == v) := by
  unfold graph_database_sharedmem.ensure_vertex
  by_cases h : db.vertex_index.has_vertex v
  · rw [if_pos h]
    by_cases hw : w = v
    · subst hw
      simp [h]
    · simp [hw]
  · rw [if_neg h]
    exact add_vertex_has db vh v none w

theorem ensure_vertex_has_self (db : graph_database_sharedmem) (vh : Nat → Nat)
    (v : Nat) :
    (db.ensure_vertex vh v).vertex_index.has_vertex v = true := by
  rw [ensure_vertex_has]
  simp

theorem ensure_vertex_master_stable (db : graph_database_sharedmem) (vh : Nat → Nat)
    (v w : Nat) (hw : db.vertex_index.has_vertex w = true) :
    (db.ensure_vertex vh v).get_master w = db.get_master w := by
  unfold graph_database_sharedmem.ensure_vertex
  by_cases h : db.vertex_index.has_vertex v
  · rw [if_pos h]
  · rw [if_neg h]
    exact add_vertex_master_stable db vh v none w hw

theorem ensure_vertex_num_shards (db : graph_database_sharedmem) (vh : Nat → Nat)
    (v : Nat) :
    (db.ensure_vertex vh v).num_shards = db.num_shards := by
  unfold graph_database_sharedmem.ensure_vertex
  by_cases h : db.vertex_index.has_vertex v
  · rw [if_pos h]
  · rw [if_neg h]
    exact add_vertex_num_shards db vh v none

theorem ensure_vertex_num_edges (db : graph_database_sharedmem) (vh : Nat → Nat)
    (v : Nat) :
    (db.ensure_vertex vh v).num_edges = db.num_edges := by
  unfold graph_database_sharedmem.ensure_vertex
  by_cases h : db.vertex_index.has_vertex v
  · rw [if_pos h]
  · rw [if_neg h]
    exact add_vertex_num_edges db vh v none

theorem ensure_vertex_edges (db : graph_database_sharedmem) (vh : Nat → Nat)
    (v i : Nat) :
    ((db.ensure_vertex vh v).shards.getD i default).edges =
      (db.shards.getD i default).edges := by
  unfold graph_database_sharedmem.ensure_vertex
  by_cases h : db.vertex_index.has_vertex v
  · rw [if_pos h]
  · rw [if_neg h]
    exact add_vertex_edges db vh v none i

theorem add_mirror_master (db : graph_database_sharedmem) (v k w : Nat) :
    (db.add_mirror v k).get_master w = db.get_master w := by
  unfold graph_database_sharedmem.add_mirror
  by_cases h : db.get_master v ≠ k ∧ k ∉ db.mirrors v
  · rw [if_pos h]
    exact rfl
  · rw [if_neg h]

theorem add_mirror_has (db : graph_database_sharedmem) (v k w : Nat) :
    (db.add_mirror v k).vertex_index.has_vertex w =
      db.vertex_index.has_vertex w := by
  unfold graph_database_sharedmem.add_mirror
  by_cases h : db.get_master v ≠ k ∧ k ∉ db.mirrors v
  · rw [if_pos h]
  · rw [if_neg h]

theorem add_mirror_num_shards (db : graph_database_sharedmem) (v k : Nat) :
    (db.add_mirror v k).num_shards = db.num_shards := by
  unfold graph_database_sharedmem.add_mirror
  by_cases h : db.get_master v ≠ k ∧ k ∉ db.mirrors v
  · rw [if_pos h]
  · rw [if_neg h]

theorem add_mirror_num_edges (db : graph_database_sharedmem) (v k : Nat) :
    (db.add_mirror v k).num_edges = db.num_edges := by
  unfold graph_database_sharedmem.add_mirror
  by_cases h : db.get_master v ≠ k ∧ k ∉ db.mirrors v
  · rw [if_pos h]
  · rw [if_neg h]

theorem add_mirror_shards (db : graph_database_sharedmem) (v k : Nat) :
    (db.add_mirror v k).shards = db.shards := by
  unfold graph_database_sharedmem.add_mirror
  by_cases h : db.get_master v ≠ k ∧ k ∉ db.mirrors v
  · rw [if_pos h]
  · rw [if_neg h]

theorem add_mirror_mono (db : graph_database_sharedmem) (v k w x : Nat)
    (h : x ∈ db.mirrors w) : x ∈ (db.add_mirror v k).mirrors w := by
  unfold graph_database_sharedmem.add_mirror
  by_cases hc : db.get_master v ≠ k ∧ k ∉ db.mirrors v
  · rw [if_pos hc]
    show x ∈ ((lookupA (setA db.vid2mirrors v (db.mirrors v ++ [k])) w).getD [])
    by_cases hw : v = w
    · subst hw
      rw [lookupA_setA_self]
      exact List.mem_append_left _ h
    · rw [lookupA_setA_ne _ _ _ _ hw]
      exact h
  · rw [if_neg hc]
    exact h

theorem add_mirror_adds (db : graph_database_sharedmem) (v k : Nat)
    (h : db.get_master v ≠ k) : k ∈ (db.add_mirror v k).mirrors v := by
  unfold graph_database_sharedmem.add_mirror
  by_cases hc : db.get_master v ≠ k ∧ k ∉ db.mirrors v
  · rw [if_pos hc]
    show k ∈ ((lookupA (setA db.vid2mirrors v (db.mirrors v ++ [k])) v).getD [])
    rw [lookupA_setA_self]
    exact List.mem_append_right _ (List.mem_singleton.2 rfl)
  · rw [if_neg hc]
    rcases not_and_or.1 hc with hc1 | hc2
    · exact absurd h hc1
    · exact not_not.1 hc2

theorem add_edge_insert_fields (db : graph_database_sharedmem)
    (eh : Nat → Nat → Nat) (s t : Nat) (data : Option graph_row) :
    (db.add_edge_insert eh s t data).vid2master = db.vid2master ∧
    (db.add_edge_insert eh s t data).vid2mirrors = db.vid2mirrors ∧
    (db.add_edge_insert eh s t data).vertex_index = db.vertex_index ∧
    (db.add_edge_insert eh s t data).num_shards = db.num_shards ∧
    (db.add_edge_insert eh s t data).num_edges = db.num_edges + 1 :=
  ⟨rfl, rfl, rfl, rfl, rfl⟩

theorem add_edge_mirrors_mono (db : graph_database_sharedmem) (vh : Nat → Nat)
    (eh : Nat → Nat → Nat) (s t : Nat) (data : Option graph_row) (w x : Nat)
    (h : x ∈ db.mirrors w) : x ∈ (db.add_edge vh eh s t data).mirrors w := by
  simp only [graph_database_sharedmem.add_edge]
  apply add_mirror_mono
  apply add_mirror_mono
  rw [ensure_vertex_mirrors, ensure_vertex_mirrors]
  exact h

theorem add_edge_master_stable (db : graph_database_sharedmem) (vh : Nat → Nat)
    (eh : Nat → Nat → Nat) (s t : Nat) (data : Option graph_row) (w : Nat)
    (hw : db.vertex_index.has_vertex w = true) :
    (db.add_edge vh eh s t data).get_master w = db.get_master w ∧
    (db.add_edge vh eh s t data).vertex_index.has_vertex w = true := by
  have h1 : (db.add_edge_insert eh s t data).vertex_index.has_vertex w = true := hw
  have h2 : ((db.add_edge_insert eh s t data).ensure_vertex vh s).vertex_index.has_vertex
      w = true := by
    rw [ensure_vertex_has, h1]
    rfl
  simp only [graph_database_sharedmem.add_edge]
  constructor
  · rw [add_mirror_master, add_mirror_master,
      ensure_vertex_master_stable _ vh t w h2, ensure_vertex_master_stable _ vh s w h1]
    exact rfl
  · rw [add_mirror_has, add_mirror_has, ensure_vertex_has, h2]
    rfl

theorem applyOp_mirrors_mono (vh : Nat → Nat) (eh : Nat → Nat → Nat)
    (db : graph_database_sharedmem) (op : DBOp) (w x : Nat)
    (h : x ∈ db.mirrors w) : x ∈ (applyOp vh eh db op).mirrors w := by
  cases op with
  | addV v =>
    show x ∈ ((db.add_vertex vh v none).2).mirrors w
    rw [add_vertex_mirrors]
    exact h
  | addE s t => exact add_edge_mirrors_mono db vh eh s t none w x h

theorem applyOp_master_stable (vh : Nat → Nat) (eh : Nat → Nat → Nat)
    (db : graph_database_sharedmem) (op : DBOp) (w : Nat)
    (hw : db.vertex_index.has_vertex w = true) :
    (applyOp vh eh db op).get_master w = db.get_master w ∧
    (applyOp vh eh db op).vertex_index.has_vertex w = true := by
  cases op with
  | addV v =>
    refine ⟨add_vertex_master_stable db vh v none w hw, ?_⟩
    show ((db.add_vertex vh v none).2).vertex_index.has_vertex w = true
    rw [add_vertex_has, hw]
    rfl
  | addE s t => exact add_edge_master_stable db vh eh s t none w hw

theorem runOps_mirrors_mono (vh : Nat → Nat) (eh : Nat → Nat → Nat) :
    ∀ (ops : List DBOp) (db : graph_database_sharedmem) (w x : Nat),
      x ∈ db.mirrors w → x ∈ (runOps vh eh db ops).mirrors w := by
  intro ops
  induction ops with
  | nil => intro db w x h; exact h
  | cons op rest ih =>
    intro db w x h
    exact ih _ w x (applyOp_mirrors_mono vh eh db op w x h)

theorem runOps_master_stable (vh : Nat → Nat) (eh : Nat → Nat → Nat) :
    ∀ (ops : List DBOp) (db : graph_database_sharedmem) (w : Nat),
      db.vertex_index.has_vertex w = true →
      (runOps vh eh db ops).get_master w = db.get_master w ∧
      (runOps vh eh db ops).vertex_index.has_vertex w = true := by
  intro ops
  induction ops with
  | nil => intro db w h; exact ⟨rfl, h⟩
  | cons op rest ih =>
    intro db w h
    have hstep := applyOp_master_stable vh eh db op w h
    have hrest := ih (applyOp vh eh db op) w hstep.2
    exact ⟨hrest.1.trans hstep.1, hrest.2⟩

/-- C3: immediately after `add_edge(s, t)` stores its row in shard `k`, if
`k` differs from the endpoint's master shard then `k` is in that endpoint's
mirror set (both endpoints); and across any sequence of modification
operations mirror sets never lose an element and an indexed vertex's master
shard never changes (the vertex stays indexed). -/
theorem C3_mirror_and_master_invariants (vh : Nat → Nat) (eh : Nat → Nat → Nat) :
    (∀ (db : graph_database_sharedmem) (s t : Nat) (data : Option graph_row),
      ((db.add_edge vh eh s t data).get_master s ≠ eh s t % db.num_shards →
        eh s t % db.num_shards ∈ (db.add_edge vh eh s t data).mirrors s) ∧
      ((db.add_edge vh eh s t data).get_master t ≠ eh s t % db.num_shards →
        eh s t % db.num_shards ∈ (db.add_edge vh eh s t data).mirrors t)) ∧
    (∀ (db : graph_database_sharedmem) (ops : List DBOp) (w x : Nat),
      x ∈ db.mirrors w → x ∈ (runOps vh eh db ops).mirrors w) ∧
    (∀ (db : graph_database_sharedmem) (ops : List DBOp) (w : Nat),
      db.vertex_index.has_vertex w = true →
      (runOps vh eh db ops).get_master w = db.get_master w ∧
      (runOps vh eh db ops).vertex_index.has_vertex w = true) := by
  refine ⟨?_, fun db ops => runOps_mirrors_mono vh eh ops db,
    fun db ops => runOps_master_stable vh eh ops db⟩
  intro db s t data
  simp only [graph_database_sharedmem.add_edge]
  constructor
  · intro h
    rw [add_mirror_master, add_mirror_master] at h
    exact add_mirror_mono _ t _ s _ (add_mirror_adds _ s _ h)
  · intro h
    rw [add_mirror_master] at h
    exact add_mirror_adds _ t _ h

/-- Witness for C3 at concrete states: the mirror is recorded after
`add_edge`, mirrors survive further operations, masters stay fixed. -/
theorem C3_mirror_and_master_invariants_witness :
    (db_e21.get_master 2 ≠ eh_sum 2 1 % db_two.num_shards ∧
     eh_sum 2 1 % db_two.num_shards ∈ db_e21.mirrors 2) ∧
    ((db_two.add_edge vh_id eh_sum 1 2 none).get_master 2 ≠
        eh_sum 1 2 % db_two.num_shards ∧
     eh_sum 1 2 % db_two.num_shards ∈
        (db_two.add_edge vh_id eh_sum 1 2 none).mirrors 2) ∧
    (1 ∈ db_e21.mirrors 2 ∧
     1 ∈ (runOps vh_id eh_sum db_e21 [DBOp.addV 5]).mirrors 2) ∧
    (db_e21.vertex_index.has_vertex 2 = true ∧
     (runOps vh_id eh_sum db_e21 [DBOp.addE 3 4]).get_master 2 = db_e21.get_master 2 ∧
     (runOps vh_id eh_sum db_e21 [DBOp.addE 3 4]).vertex_index.has_vertex 2 = true) :=
  ⟨⟨by decide,
    ((C3_mirror_and_master_invariants vh_id eh_sum).1 db_two 2 1 none).1 (by decide)⟩,
   ⟨by decide,
    ((C3_mirror_and_master_invariants vh_id eh_sum).1 db_two 1 2 none).2 (by decide)⟩,
   ⟨by decide,
    (C3_mirror_and_master_invariants vh_id eh_sum).2.1 db_e21 [DBOp.addV 5] 2 1 (by decide)⟩,
   ⟨by decide,
    ((C3_mirror_and_master_invariants vh_id eh_sum).2.2 db_e21 [DBOp.addE 3 4] 2 (by decide)).1,
    ((C3_mirror_and_master_invariants vh_id eh_sum).2.2 db_e21 [DBOp.addE 3 4] 2 (by decide)).2⟩⟩

/-- C5: `add_vertex` on an already-indexed vid returns failure and leaves the
state untouched; on a fresh vid it succeeds, grows `num_vertices()` by exactly
one, and a repeated `add_vertex` on the same vid then fails. -/
theorem C5_add_vertex_conflict (vh : Nat → Nat) (db : graph_database_sharedmem)
    (v : Nat) (data data' : Option graph_row) :
    (db.vertex_index.has_vertex v = true → db.add_vertex vh v data = (false, db)) ∧
    (db.vertex_index.has_vertex v = false →
      (db.add_vertex vh v data).1 = true ∧
      (db.add_vertex vh v data).2.num_vertices = db.num_vertices + 1 ∧
      ((db.add_vertex vh v data).2.add_vertex vh v data').1 = false) := by
  constructor
  · intro h
    unfold graph_database_sharedmem.add_vertex
    rw [if_pos h]
  · intro h
    have hne : ¬ db.vertex_index.has_vertex v := by simp [h]
    refine ⟨?_, ?_, ?_⟩
    · unfold graph_database_sharedmem.add_vertex
      rw [if_neg hne]
    · unfold graph_database_sharedmem.add_vertex
      rw [if_neg hne]
      show (db.vertex_store ++ [_]).length = db.vertex_store.length + 1
      simp
    · have hhas : (db.add_vertex vh v data).2.vertex_index.has_vertex v = true := by
        rw [add_vertex_has]
        simp
      have hfail : ∀ X : graph_database_sharedmem,
          X.vertex_index.has_vertex v = true → (X.add_vertex vh v data').1 = false := by
        intro X hX
        unfold graph_database_sharedmem.add_vertex
        rw [if_pos hX]
      exact hfail _ hhas

/-- Witness for C5: vertex 1 is already indexed in `sample_db`, vertex 7 is
fresh in the empty two-shard database. -/
theorem C5_add_vertex_conflict_witness :
    (sample_db.vertex_index.has_vertex 1 = true ∧
     sample_db.add_vertex vh_id 1 none = (false, sample_db)) ∧
    (db_two.vertex_index.has_vertex 7 = false ∧
     (db_two.add_vertex vh_id 7 none).1 = true ∧
     (db_two.add_vertex vh_id 7 none).2.num_vertices = db_two.num_vertices + 1 ∧
     ((db_two.add_vertex vh_id 7 none).2.add_vertex vh_id 7 none).1 = false) :=
  ⟨⟨by decide, (C5_add_vertex_conflict vh_id sample_db 1 none none).1 (by decide)⟩,
   ⟨by decide, (C5_add_vertex_conflict vh_id db_two 7 none none).2 (by decide)⟩⟩

theorem add_vertex_store (db : graph_database_sharedmem) (vh : Nat → Nat)
    (v : Nat) (data : Option graph_row)
    (hn : db.vertex_index.has_vertex v = false) :
    ((db.add_vertex vh v data).2).vertex_store =
      db.vertex_store ++ [(vh v % db.num_shards,
        (db.shards.getD (vh v % db.num_shards) default).vertices.length)] := by
  unfold graph_database_sharedmem.add_vertex
  rw [if_neg (by simp [hn])]
  exact rfl

theorem add_vertex_get_index (db : graph_database_sharedmem) (vh : Nat → Nat)
    (v : Nat) (data : Option graph_row) (w : Nat)
    (hn : db.vertex_index.has_vertex v = false) :
    ((db.add_vertex vh v data).2).vertex_index.get_index w =
      (if v = w then some db.vertex_store.length
       else db.vertex_index.get_index w) := by
  unfold graph_database_sharedmem.add_vertex
  rw [if_neg (by simp [hn])]
  rfl

theorem add_vertex_master_ne (db : graph_database_sharedmem) (vh : Nat → Nat)
    (v : Nat) (data : Option graph_row) (w : Nat) (hw : w ≠ v) :
    ((db.add_vertex vh v data).2).get_master w = db.get_master w := by
  unfold graph_database_sharedmem.add_vertex
  by_cases h : db.vertex_index.has_vertex v
  · rw [if_pos h]
  · rw [if_neg h]
    show (lookupA (setA db.vid2master v (vh v % db.num_shards)) w).getD 0 = _
    rw [lookupA_setA_ne _ _ _ _ (fun hc => hw hc.symm)]
    rfl

theorem add_vertex_shards_len (db : graph_database_sharedmem) (vh : Nat → Nat)
    (v : Nat) (data : Option graph_row) :
    ((db.add_vertex vh v data).2).shards.length = db.shards.length := by
  unfold graph_database_sharedmem.add_vertex
  by_cases h : db.vertex_index.has_vertex v
  · rw [if_pos h]
  · rw [if_neg h]
    show (db.shards.set _ _).length = _
    simp

theorem add_vertex_vlen_mono (db : graph_database_sharedmem) (vh : Nat → Nat)
    (v : Nat) (data : Option graph_row) (x : Nat) :
    (db.shards.getD x default).vertices.length ≤
      (((db.add_vertex vh v data).2).shards.getD x default).vertices.length := by
  unfold graph_database_sharedmem.add_vertex
  by_cases h : db.vertex_index.has_vertex v
  · rw [if_pos h]
  · rw [if_neg h]
    show _ ≤ ((db.shards.set (vh v % db.num_shards) _).getD x default).vertices.length
    by_cases hm : vh v % db.num_shards < db.shards.length
    · by_cases hx : x = vh v % db.num_shards
      · subst hx
        rw [lgetD_set_self _ _ _ _ hm]
        simp [graph_shard.add_vertex]
      · rw [lgetD_set_ne _ _ _ _ _ (fun hc => hx hc.symm)]
    · rw [lset_oob _ _ _ (Nat.le_of_not_lt hm)]

theorem add_vertex_vlen_master (db : graph_database_sharedmem) (vh : Nat → Nat)
    (v : Nat) (data : Option graph_row)
    (hn : db.vertex_index.has_vertex v = false)
    (hm : vh v % db.num_shards < db.shards.length) :
    (((db.add_vertex vh v data).2).shards.getD (vh v % db.num_shards)
      default).vertices.length =
      (db.shards.getD (vh v % db.num_shards) default).vertices.length + 1 := by
  unfold graph_database_sharedmem.add_vertex
  rw [if_neg (by simp [hn])]
  show ((db.shards.set (vh v % db.num_shards) _).getD (vh v % db.num_shards)
    default).vertices.length = _
  rw [lgetD_set_self _ _ _ _ hm]
  show ((db.shards.getD (vh v % db.num_shards) default).vertices ++ [_]).length = _
  simp

theorem add_edge_insert_vertices (db : graph_database_sharedmem)
    (eh : Nat → Nat → Nat) (s t : Nat) (data : Option graph_row) (x : Nat) :
    ((db.add_edge_insert eh s t data).shards.getD x default).vertices =
      (db.shards.getD x default).vertices := by
  unfold graph_database_sharedmem.add_edge_insert
  show ((db.shards.set (eh s t % db.num_shards) _).getD x default).vertices = _
  by_cases hm : eh s t % db.num_shards < db.shards.length
  · by_cases hx : x = eh s t % db.num_shards
    · subst hx
      rw [lgetD_set_self _ _ _ _ hm]
      rfl
    · rw [lgetD_set_ne _ _ _ _ _ (fun hc => hx hc.symm)]
  · rw [lset_oob _ _ _ (Nat.le_of_not_lt hm)]

theorem add_edge_insert_shards_len (db : graph_database_sharedmem)
    (eh : Nat → Nat → Nat) (s t : Nat) (data : Option graph_row) :
    (db.add_edge_insert eh s t data).shards.length = db.shards.length := by
  unfold graph_database_sharedmem.add_edge_insert
  show (db.shards.set _ _).length = _
  simp

theorem DBInv_init (vh : Nat → Nat) (vf ef : List graph_field) (n : Nat)
    (hp : 0 < n) : DBInv vh n (graph_database_sharedmem.init vf ef n) := by
  refine ⟨rfl, by simp [graph_database_sharedmem.init], hp, ?_, ?_, ?_, ?_⟩
  · intro v hv
    exact Bool.noConfusion hv
  · intro v i hv
    exact absurd hv (by simp [graph_database_sharedmem.init,
      graph_vertex_index.get_index, lookupA])
  · intro v _
    rfl
  · intro v
    show (0 : Nat) ∉ ([] : List Nat)
    simp

theorem DBInv_add_vertex (vh : Nat → Nat) (n : Nat) (db : graph_database_sharedmem)
    (v : Nat) (data : Option graph_row) (H : DBInv vh n db) :
    DBInv vh n ((db.add_vertex vh v data).2) := by
  by_cases hhas : db.vertex_index.has_vertex v
  · have heq : (db.add_vertex vh v data).2 = db := by
      unfold graph_database_sharedmem.add_vertex
      rw [if_pos hhas]
    rw [heq]
    exact H
  · have hn : db.vertex_index.has_vertex v = false := by simp at hhas; exact hhas
    have hmlt : vh v % db.num_shards < db.shards.length := by
      rw [H.hns, H.hlen]
      exact Nat.mod_lt _ H.hpos
    refine ⟨?_, ?_, H.hpos, ?_, ?_, ?_, ?_⟩
    · rw [add_vertex_num_shards]
      exact H.hns
    · rw [add_vertex_shards_len]
      exact H.hlen
    · intro w hw
      rw [add_vertex_has] at hw
      by_cases hwv : w = v
      · subst hwv
        rw [add_vertex_master_new db vh w data hn, H.hns]
      · have hw' : db.vertex_index.has_vertex w = true := by
          simp [hwv] at hw
          exact hw
        rw [add_vertex_master_ne db vh v data w hwv]
        exact H.hmaster w hw'
    · intro w i hw
      rw [add_vertex_get_index db vh v data w hn] at hw
      rw [add_vertex_store db vh v data hn]
      by_cases hvw : v = w
      · rw [if_pos hvw] at hw
        have hi : i = db.vertex_store.length := by
          injection hw with h
          exact h.symm
        subst hi
        subst hvw
        rw [lgetD_append_last]
        have hmast : ((db.add_vertex vh v data).2).get_master v = vh v % db.num_shards :=
          add_vertex_master_new db vh v data hn
        refine ⟨by simp, ?_, ?_, ?_⟩
        · rw [hmast]
        · show vh v % db.num_shards < n
          rw [H.hns] at hmlt ⊢
          rw [H.hlen] at hmlt
          exact hmlt
        · show (db.shards.getD (vh v % db.num_shards) default).vertices.length <
            ((((db.add_vertex vh v data).2)).shards.getD (vh v % db.num_shards)
              default).vertices.length
          rw [add_vertex_vlen_master db vh v data hn hmlt]
          exact Nat.lt_succ_self _
      · rw [if_neg hvw] at hw
        have hold := H.hindex w i hw
        have hilt : i < db.vertex_store.length := hold.1
        rw [lgetD_append_left _ _ _ _ hilt]
        refine ⟨by simp; omega, ?_, hold.2.2.1, ?_⟩
        · rw [add_vertex_master_ne db vh v data w (fun hc => hvw hc.symm)]
          exact hold.2.1
        · exact Nat.lt_of_lt_of_le hold.2.2.2 (add_vertex_vlen_mono db vh v data _)
    · intro w hw
      rw [add_vertex_has] at hw
      rw [add_vertex_mirrors]
      apply H.hunmir
      rcases Bool.or_eq_false_iff.1 hw with ⟨h1, _⟩
      exact h1
    · intro w
      rw [add_vertex_mirrors]
      by_cases hwv : w = v
      · subst hwv
        rw [H.hunmir w hn]
        simp
      · rw [add_vertex_master_ne db vh v data w hwv]
        exact H.hmnm w

theorem add_mirror_get_index (db : graph_database_sharedmem) (v k w : Nat) :
    (db.add_mirror v k).vertex_index.get_index w =
      db.vertex_index.get_index w := by
  unfold graph_database_sharedmem.add_mirror
  by_cases h : db.get_master v ≠ k ∧ k ∉ db.mirrors v
  · rw [if_pos h]
  · rw [if_neg h]

theorem add_mirror_store (db : graph_database_sharedmem) (v k : Nat) :
    (db.add_mirror v k).vertex_store = db.vertex_store := by
  unfold graph_database_sharedmem.add_mirror
  by_cases h : db.get_master v ≠ k ∧ k ∉ db.mirrors v
  · rw [if_pos h]
  · rw [if_neg h]

theorem add_mirror_mirrors_ne (db : graph_database_sharedmem) (v k w : Nat)
    (hw : w ≠ v) : (db.add_mirror v k).mirrors w = db.mirrors w := by
  unfold graph_database_sharedmem.add_mirror
  by_cases h : db.get_master v ≠ k ∧ k ∉ db.mirrors v
  · rw [if_pos h]
    show (lookupA (setA db.vid2mirrors v (db.mirrors v ++ [k])) w).getD [] = _
    rw [lookupA_setA_ne _ _ _ _ (fun hc => hw hc.symm)]
    rfl
  · rw [if_neg h]

theorem DBInv_add_edge_insert (vh : Nat → Nat) (n : Nat)
    (db : graph_database_sharedmem) (eh : Nat → Nat → Nat) (s t : Nat)
    (data : Option graph_row) (H : DBInv vh n db) :
    DBInv vh n (db.add_edge_insert eh s t data) := by
  refine ⟨H.hns, ?_, H.hpos, H.hmaster, ?_, H.hunmir, H.hmnm⟩
  · rw [add_edge_insert_shards_len]
    exact H.hlen
  · intro w i hw
    have hold := H.hindex w i hw
    refine ⟨hold.1, hold.2.1, hold.2.2.1, ?_⟩
    show (db.vertex_store.getD i default).2 <
      ((db.add_edge_insert eh s t data).shards.getD
        (db.vertex_store.getD i default).1 default).vertices.length
    rw [add_edge_insert_vertices]
    exact hold.2.2.2

theorem DBInv_ensure_vertex (vh : Nat → Nat) (n : Nat)
    (db : graph_database_sharedmem) (v : Nat) (H : DBInv vh n db) :
    DBInv vh n (db.ensure_vertex vh v) := by
  unfold graph_database_sharedmem.ensure_vertex
  by_cases h : db.vertex_index.has_vertex v
  · rw [if_pos h]
    exact H
  · rw [if_neg h]
    exact DBInv_add_vertex vh n db v none H

theorem DBInv_add_mirror (vh : Nat → Nat) (n : Nat)
    (db : graph_database_sharedmem) (v k : Nat)
    (hv : db.vertex_index.has_vertex v = true) (H : DBInv vh n db) :
    DBInv vh n (db.add_mirror v k) := by
  refine ⟨?_, ?_, H.hpos, ?_, ?_, ?_, ?_⟩
  · rw [add_mirror_num_shards]
    exact H.hns
  · rw [add_mirror_shards]
    exact H.hlen
  · intro w hw
    rw [add_mirror_has] at hw
    rw [add_mirror_master]
    exact H.hmaster w hw
  · intro w i hw
    rw [add_mirror_get_index] at hw
    have hold := H.hindex w i hw
    rw [add_mirror_store, add_mirror_master, add_mirror_shards]
    exact hold
  · intro w hw
    rw [add_mirror_has] at hw
    have hwv : w ≠ v := by
      intro he
      rw [he, hv] at hw
      exact Bool.noConfusion hw
    rw [add_mirror_mirrors_ne _ _ _ _ hwv]
    exact H.hunmir w hw
  · intro w
    rw [add_mirror_master]
    by_cases hwv : w = v
    · subst hwv
      unfold graph_database_sharedmem.add_mirror
      by_cases hc : db.get_master w ≠ k ∧ k ∉ db.mirrors w
      · rw [if_pos hc]
        show db.get_master w ∉
          ((lookupA (setA db.vid2mirrors w (db.mirrors w ++ [k])) w).getD [])
        rw [lookupA_setA_self]
        intro hmem
        rcases List.mem_append.1 hmem with h1 | h2
        · exact H.hmnm w h1
        · exact hc.1 (List.mem_singleton.1 h2)
      · rw [if_neg hc]
        exact H.hmnm w
    · rw [add_mirror_mirrors_ne _ _ _ _ hwv]
      exact H.hmnm w

theorem DBInv_add_edge (vh : Nat → Nat) (n : Nat)
    (db : graph_database_sharedmem) (eh : Nat → Nat → Nat) (s t : Nat)
    (data : Option graph_row) (H : DBInv vh n db) :
    DBInv vh n (db.add_edge vh eh s t data) := by
  have H1 := DBInv_add_edge_insert vh n db eh s t data H
  have H2 := DBInv_ensure_vertex vh n _ s H1
  have H3 := DBInv_ensure_vertex vh n _ t H2
  have hs3 : (((db.add_edge_insert eh s t data).ensure_vertex vh s).ensure_vertex
      vh t).vertex_index.has_vertex s = true := by
    rw [ensure_vertex_has, ensure_vertex_has_self]
    rfl
  have H4 := DBInv_add_mirror vh n _ s (eh s t % db.num_shards) hs3 H3
  have ht4 : ((((db.add_edge_insert eh s t data).ensure_vertex vh s).ensure_vertex
      vh t).add_mirror s (eh s t % db.num_shards)).vertex_index.has_vertex t = true := by
    rw [add_mirror_has, ensure_vertex_has_self]
  exact DBInv_add_mirror vh n _ t (eh s t % db.num_shards) ht4 H4

theorem DBInv_applyOp (vh : Nat → Nat) (eh : Nat → Nat → Nat) (n : Nat)
    (db : graph_database_sharedmem) (op : DBOp) (H : DBInv vh n db) :
    DBInv vh n (applyOp vh eh db op) := by
  cases op with
  | addV v => exact DBInv_add_vertex vh n db v none H
  | addE s t => exact DBInv_add_edge vh n db eh s t none H

theorem DBInv_runOps (vh : Nat → Nat) (eh : Nat → Nat → Nat) (n : Nat) :
    ∀ (ops : List DBOp) (db : graph_database_sharedmem), DBInv vh n db →
      DBInv vh n (runOps vh eh db ops) := by
  intro ops
  induction ops with
  | nil => intro db H; exact H
  | cons op rest ih =>
    intro db H
    exact ih _ (DBInv_applyOp vh eh n db op H)

theorem add_edge_insert_edges_at (db : graph_database_sharedmem)
    (eh : Nat → Nat → Nat) (s t : Nat) (data : Option graph_row)
    (hk : eh s t % db.num_shards < db.shards.length) :
    ((db.add_edge_insert eh s t data).shards.getD (eh s t % db.num_shards)
      default).edges =
      (db.shards.getD (eh s t % db.num_shards) default).edges ++
        [(s, t, { (data.getD (graph_row.mk_null db.edge_fields)) with
          is_vertex := false })] := by
  unfold graph_database_sharedmem.add_edge_insert
  show ((db.shards.set (eh s t % db.num_shards) _).getD (eh s t % db.num_shards)
    default).edges = _
  rw [lgetD_set_self _ _ _ _ hk]
  rfl

/-- C4: from any reachable state, `add_edge(s, t)` appends the edge row to
shard `hash((s, t)) % num_shards`, grows `num_edges()` by exactly one, and
leaves both endpoints indexed with master shard `hash(vid) % num_shards`. -/
theorem C4_add_edge_stores_and_creates (vh : Nat → Nat) (eh : Nat → Nat → Nat)
    (vf ef : List graph_field) (n : Nat) (ops : List DBOp) (s t : Nat)
    (data : Option graph_row) (hp : 0 < n) :
    let db := runOps vh eh (graph_database_sharedmem.init vf ef n) ops
    let db' := db.add_edge vh eh s t data
    db'.num_edges = db.num_edges + 1 ∧
    (db'.shards.getD (eh s t % n) default).edges =
      (db.shards.getD (eh s t % n) default).edges ++
        [(s, t, { (data.getD (graph_row.mk_null db.edge_fields)) with
          is_vertex := false })] ∧
    db'.vertex_index.has_vertex s = true ∧
    db'.vertex_index.has_vertex t = true ∧
    db'.get_master s = vh s % n ∧
    db'.get_master t = vh t % n := by
  intro db db'
  have H : DBInv vh n db :=
    DBInv_runOps vh eh n ops _ (DBInv_init vh vf ef n hp)
  have hkeq : eh s t % n = eh s t % db.num_shards := by rw [H.hns]
  have hk : eh s t % db.num_shards < db.shards.length := by
    rw [H.hns, H.hlen]
    exact Nat.mod_lt _ hp
  have hhs : db'.vertex_index.has_vertex s = true := by
    show (db.add_edge vh eh s t data).vertex_index.has_vertex s = true
    simp only [graph_database_sharedmem.add_edge]
    rw [add_mirror_has, add_mirror_has, ensure_vertex_has, ensure_vertex_has_self]
    rfl
  have hht : db'.vertex_index.has_vertex t = true := by
    show (db.add_edge vh eh s t data).vertex_index.has_vertex t = true
    simp only [graph_database_sharedmem.add_edge]
    rw [add_mirror_has, add_mirror_has, ensure_vertex_has_self]
  have H' : DBInv vh n db' := DBInv_add_edge vh n db eh s t data H
  refine ⟨?_, ?_, hhs, hht, H'.hmaster s hhs, H'.hmaster t hht⟩
  · show (db.add_edge vh eh s t data).num_edges = db.num_edges + 1
    simp only [graph_database_sharedmem.add_edge]
    rw [add_mirror_num_edges, add_mirror_num_edges, ensure_vertex_num_edges,
      ensure_vertex_num_edges]
    exact rfl
  · show ((db.add_edge vh eh s t data).shards.getD (eh s t % n) default).edges = _
    rw [hkeq]
    simp only [graph_database_sharedmem.add_edge]
    rw [add_mirror_shards, add_mirror_shards, ensure_vertex_edges,
      ensure_vertex_edges, add_edge_insert_edges_at db eh s t data hk]

/-- Witness for C4 at the empty two-shard database with `add_edge(2, 1)`. -/
theorem C4_add_edge_stores_and_creates_witness :
    0 < 2 ∧
    (let db := runOps vh_id eh_sum (graph_database_sharedmem.init [] [] 2) []
     let db' := db.add_edge vh_id eh_sum 2 1 none
     db'.num_edges = db.num_edges + 1 ∧
     (db'.shards.getD (eh_sum 2 1 % 2) default).edges =
       (db.shards.getD (eh_sum 2 1 % 2) default).edges ++
         [(2, 1, { (Option.none.getD (graph_row.mk_null db.edge_fields)) with
           is_vertex := false })] ∧
     db'.vertex_index.has_vertex 2 = true ∧
     db'.vertex_index.has_vertex 1 = true ∧
     db'.get_master 2 = vh_id 2 % 2 ∧
     db'.get_master 1 = vh_id 1 % 2) :=
  ⟨by decide, C4_add_edge_stores_and_creates vh_id eh_sum [] [] 2 [] 2 1 none (by decide)⟩

theorem get_vertex_eq_none (db : graph_database_sharedmem) (v : Nat)
    (hix : db.vertex_index.get_index v = none) : db.get_vertex v = none := by
  simp only [graph_database_sharedmem.get_vertex, hix]

theorem get_vertex_eq_some (db : graph_database_sharedmem) (v i : Nat)
    (hix : db.vertex_index.get_index v = some i)
    (hlt : i < db.vertex_store.length) :
    db.get_vertex v =
      some { vid := v
             vdata := db.vertex_store.getD i default
             master := db.get_master v
             mirrors := db.mirrors v } := by
  simp only [graph_database_sharedmem.get_vertex, hix]
  rw [if_pos hlt]

theorem applyOp_has (vh : Nat → Nat) (eh : Nat → Nat → Nat)
    (db : graph_database_sharedmem) (op : DBOp) (v : Nat) :
    ((applyOp vh eh db op).vertex_index.has_vertex v = true ↔
      (db.vertex_index.has_vertex v = true ∨ v ∈ opVids [op])) := by
  cases op with
  | addV w =>
    show ((db.add_vertex vh w none).2).vertex_index.has_vertex v = true ↔ _
    rw [add_vertex_has]
    simp [opVids]
  | addE s t =>
    show (db.add_edge vh eh s t none).vertex_index.has_vertex v = true ↔ _
    simp only [graph_database_sharedmem.add_edge]
    rw [add_mirror_has, add_mirror_has, ensure_vertex_has, ensure_vertex_has]
    show (db.vertex_index.has_vertex v || v == s || v == t) = true ↔ _
    simp [opVids]
    tauto

theorem runOps_has_iff (vh : Nat → Nat) (eh : Nat → Nat → Nat) :
    ∀ (ops : List DBOp) (db : graph_database_sharedmem) (v : Nat),
      ((runOps vh eh db ops).vertex_index.has_vertex v = true ↔
        (db.vertex_index.has_vertex v = true ∨ v ∈ opVids ops)) := by
  intro ops
  induction ops with
  | nil =>
    intro db v
    show db.vertex_index.has_vertex v = true ↔ _
    simp [opVids]
  | cons op rest ih =>
    intro db v
    show (runOps vh eh (applyOp vh eh db op) rest).vertex_index.has_vertex v = true ↔ _
    rw [ih, applyOp_has]
    cases op with
    | addV w =>
      simp [opVids]
      tauto
    | addE s t =>
      simp [opVids]
      tauto

/-- C7: on any reachable state, `get_vertex(vid)` returns the distinguishable
not-found result (`none`, the NULL handle) exactly when the vid was never
added (directly or as an auto-created endpoint), and otherwise a live handle
whose row locator points into the vertex's master shard at a valid slot. -/
theorem C7_get_vertex_notfound_or_handle (vh : Nat → Nat) (eh : Nat → Nat → Nat)
    (vf ef : List graph_field) (n : Nat) (ops : List DBOp) (v : Nat)
    (hp : 0 < n) :
    let db := runOps vh eh (graph_database_sharedmem.init vf ef n) ops
    (db.get_vertex v = none ↔ v ∉ opVids ops) ∧
    (∀ h, db.get_vertex v = some h →
      h.vid = v ∧ h.master = db.get_master v ∧ h.mirrors = db.mirrors v ∧
      h.vdata.1 = db.get_master v ∧ h.vdata.1 < db.shards.length ∧
      h.vdata.2 < (db.shards.getD h.vdata.1 default).vertices.length) := by
  intro db
  have H : DBInv vh n db :=
    DBInv_runOps vh eh n ops _ (DBInv_init vh vf ef n hp)
  have hiff : db.vertex_index.has_vertex v = true ↔ v ∈ opVids ops := by
    have h0 : (graph_database_sharedmem.init vf ef n).vertex_index.has_vertex v =
        false := rfl
    rw [show (db.vertex_index.has_vertex v = true ↔ _) from
      runOps_has_iff vh eh ops (graph_database_sharedmem.init vf ef n) v, h0]
    simp
  constructor
  · cases hix : db.vertex_index.get_index v with
    | none =>
      rw [get_vertex_eq_none db v hix]
      have hhas : db.vertex_index.has_vertex v = false := by
        unfold graph_vertex_index.has_vertex
        rw [hix]
        rfl
      constructor
      · intro _ hmem
        have := hiff.2 hmem
        rw [hhas] at this
        exact Bool.noConfusion this
      · intro _
        rfl
    | some i =>
      have hb := H.hindex v i hix
      rw [get_vertex_eq_some db v i hix hb.1]
      have hhas : db.vertex_index.has_vertex v = true := by
        unfold graph_vertex_index.has_vertex
        rw [hix]
        rfl
      constructor
      · intro hc
        exact Option.noConfusion hc
      · intro hne
        exact absurd (hiff.1 hhas) hne
  · intro h hg
    cases hix : db.vertex_index.get_index v with
    | none =>
      rw [get_vertex_eq_none db v hix] at hg
      exact Option.noConfusion hg
    | some i =>
      have hb := H.hindex v i hix
      rw [get_vertex_eq_some db v i hix hb.1] at hg
      injection hg with hg'
      subst hg'
      refine ⟨rfl, rfl, rfl, hb.2.1, ?_, hb.2.2.2⟩
      show (db.vertex_store.getD i default).1 < db.shards.length
      rw [H.hlen]
      exact hb.2.2.1

/-- Witness for C7 after inserting the single edge (2, 1) into two shards:
vid 2 yields a live handle bound to its master shard, vid 9 is not found. -/
theorem C7_get_vertex_notfound_or_handle_witness :
    0 < 2 ∧
    (let db := runOps vh_id eh_sum (graph_database_sharedmem.init [] [] 2)
       [DBOp.addE 2 1]
     (db.get_vertex 9 = none ↔ 9 ∉ opVids [DBOp.addE 2 1]) ∧
     (∀ h, db.get_vertex 9 = some h →
       h.vid = 9 ∧ h.master = db.get_master 9 ∧ h.mirrors = db.mirrors 9 ∧
       h.vdata.1 = db.get_master 9 ∧ h.vdata.1 < db.shards.length ∧
       h.vdata.2 < (db.shards.getD h.vdata.1 default).vertices.length)) ∧
    (let db := runOps vh_id eh_sum (graph_database_sharedmem.init [] [] 2)
       [DBOp.addE 2 1]
     (db.get_vertex 2 = none ↔ 2 ∉ opVids [DBOp.addE 2 1]) ∧
     (∀ h, db.get_vertex 2 = some h →
       h.vid = 2 ∧ h.master = db.get_master 2 ∧ h.mirrors = db.mirrors 2 ∧
       h.vdata.1 = db.get_master 2 ∧ h.vdata.1 < db.shards.length ∧
       h.vdata.2 < (db.shards.getD h.vdata.1 default).vertices.length)) :=
  ⟨by decide,
   C7_get_vertex_notfound_or_handle vh_id eh_sum [] [] 2 [DBOp.addE 2 1] 9 (by decide),
   C7_get_vertex_notfound_or_handle vh_id eh_sum [] [] 2 [DBOp.addE 2 1] 2 (by decide)⟩

/-- C10: `get_shard_list()` returns exactly the handle's mirror set, whose
length is `get_num_shards() - 1` (`get_num_shards()` being the mirror count
plus one for the master); and for a handle issued by `get_vertex` on a
reachable state, the master shard never occurs in the returned list. -/
theorem C10_get_shard_list_omits_master :
    (∀ h : graph_vertex_sharedmem,
      h.get_shard_list = h.mirrors ∧
      h.get_num_shards = h.mirrors.length + 1 ∧
      h.get_shard_list.length = h.get_num_shards - 1) ∧
    (∀ (vh : Nat → Nat) (eh : Nat → Nat → Nat) (vf ef : List graph_field)
       (n : Nat) (ops : List DBOp) (v : Nat) (h : graph_vertex_sharedmem),
      0 < n →
      (runOps vh eh (graph_database_sharedmem.init vf ef n) ops).get_vertex v =
        some h →
      h.master ∉ h.get_shard_list) := by
  constructor
  · intro h
    exact ⟨rfl, rfl, by simp [graph_vertex_sharedmem.get_shard_list,
      graph_vertex_sharedmem.get_num_shards]⟩
  · intro vh eh vf ef n ops v h hp hg
    have H : DBInv vh n (runOps vh eh (graph_database_sharedmem.init vf ef n) ops) :=
      DBInv_runOps vh eh n ops _ (DBInv_init vh vf ef n hp)
    cases hix : (runOps vh eh (graph_database_sharedmem.init vf ef n)
        ops).vertex_index.get_index v with
    | none =>
      rw [get_vertex_eq_none _ v hix] at hg
      exact Option.noConfusion hg
    | some i =>
      have hb := H.hindex v i hix
      rw [get_vertex_eq_some _ v i hix hb.1] at hg
      injection hg with hg'
      subst hg'
      exact H.hmnm v

/-- Witness for C10: a concrete handle, and the handle `get_vertex(2)` issues
after inserting edge (2, 1) — its master shard 0 is absent from its shard
list [1]. -/
theorem C10_get_shard_list_omits_master_witness :
    ((graph_vertex_sharedmem.mk 4 (0, 0) 2 [0, 1]).get_shard_list =
        (graph_vertex_sharedmem.mk 4 (0, 0) 2 [0, 1]).mirrors ∧
      (graph_vertex_sharedmem.mk 4 (0, 0) 2 [0, 1]).get_num_shards =
        (graph_vertex_sharedmem.mk 4 (0, 0) 2 [0, 1]).mirrors.length + 1 ∧
      (graph_vertex_sharedmem.mk 4 (0, 0) 2 [0, 1]).get_shard_list.length =
        (graph_vertex_sharedmem.mk 4 (0, 0) 2 [0, 1]).get_num_shards - 1) ∧
    (0 < 2 ∧
     (runOps vh_id eh_sum (graph_database_sharedmem.init [] [] 2)
        [DBOp.addE 2 1]).get_vertex 2 =
       some (graph_vertex_sharedmem.mk 2 (0, 0) 0 [1]) ∧
     (graph_vertex_sharedmem.mk 2 (0, 0) 0 [1]).master ∉
       (graph_vertex_sharedmem.mk 2 (0, 0) 0 [1]).get_shard_list) :=
  ⟨(C10_get_shard_list_omits_master).1 (graph_vertex_sharedmem.mk 4 (0, 0) 2 [0, 1]),
   by decide, by decide,
   (C10_get_shard_list_omits_master).2 vh_id eh_sum [] [] 2 [DBOp.addE 2 1] 2
     (graph_vertex_sharedmem.mk 2 (0, 0) 0 [1]) (by decide) (by decide)⟩
